import Mathlib

/-!
Shallow embedding of the client-side state layer of the `runcher_tauri`
mod-manager frontend (files `src/packList.ts` and `src/modTree.ts`), together
with theorems settling the frozen claims about it.

Modelling conventions:
* JS strings are Lean `String`s; JS `<` on strings (UTF-16 code-unit
  lexicographic) is modelled by Lean's lexicographic `<` on `String`
  (they agree on all Basic-Multilingual-Plane text).
* JS numbers are modelled exactly as rationals `ℚ` (all numeric values the
  code manipulates here — parsed sizes, integer orders — are exact in both).
* A JS `Set` (insertion-ordered, duplicate-free) is a duplicate-free `List`.
* `Map`s keyed by element id and the live DOM are modelled by one nested
  structure (`TreeDom`); lookups by key are `List.find?` by id.
* JS `Array.prototype.sort` (stable, comparator-driven) is `List.mergeSort`
  with `le a b := comparator a b ≤ 0`, which is stable and orders identically
  for the consistent comparators used by this code.
-/

namespace Runcher

/-! ### JS primitive helpers -/

/-- Does `pat` occur at the head of `s`? (helper for `jsIncludes`). -/
def matchesAt : List Char → List Char → Bool
  | [], _ => true
  | _ :: _, [] => false
  | p :: ps, c :: cs => p = c && matchesAt ps cs

/-- Does `pat` occur anywhere in `s`? -/
def charsHas (s pat : List Char) : Bool :=
  match s with
  | [] => pat.isEmpty
  | _ :: cs => matchesAt pat s || charsHas cs pat

/-- JS `String.prototype.includes` (substring containment). -/
def jsIncludes (s pat : String) : Bool := charsHas s.data pat.data

/-- JS `Set.prototype.add`: appends `x` unless already present
    (insertion order preserved, re-adding does not move an element). -/
def setAdd (l : List String) (x : String) : List String :=
  if x ∈ l then l else l ++ [x]

/-- JS `Set.prototype.delete`: removes `x`, keeping the order of the rest. -/
def setDel (l : List String) (x : String) : List String :=
  l.filter (fun y => y ≠ x)

/-- JS `Array.prototype.findIndex`: index of the first match, `-1` if none. -/
def jsFindIdx {α : Type} (p : α → Bool) (l : List α) : Int :=
  match l.findIdx? p with
  | some n => (n : Int)
  | none => -1

/-- JS array indexing `l[i]` for a (possibly negative) index: `none` models
    the `undefined` result. -/
def jsIdx {α : Type} (l : List α) (i : Int) : Option α :=
  if 0 ≤ i then l.get? i.toNat else none

/-- The integer range `[a..b]` inclusive, as iterated by
    `for (let i = a; i <= b; i++)`. -/
def intRange (a b : Int) : List Int :=
  (List.range (b + 1 - a).toNat).map (fun k : Nat => a + (k : Int))

/-- JS `Array.prototype.splice(i, 1)`: the array without the element at the
    JS-normalized position (negative `i` counts from the end; `splice(-1,1)`
    removes the last element), and the removed element if any. -/
def jsSpliceRemove1 {α : Type} (l : List α) (i : Int) : List α × Option α :=
  let len : Int := l.length
  let start := if i < 0 then max (len + i) 0 else min i len
  let s := start.toNat
  (l.take s ++ l.drop (s + 1), l.get? s)

/-- JS `Array.prototype.splice(i, 0, x)`: insert `x` at the JS-normalized
    position. -/
def jsSpliceInsert {α : Type} (l : List α) (i : Int) (x : α) : List α :=
  let len : Int := l.length
  let start := if i < 0 then max (len + i) 0 else min i len
  let s := start.toNat
  l.take s ++ [x] ++ l.drop s

/-- JS `String.prototype.toLowerCase`, for the ASCII text this code
    compares (per-character lowering). -/
def jsToLower (s : String) : String := ⟨s.data.map Char.toLower⟩

def isJsWhitespace (c : Char) : Bool :=
  c = ' ' || c = '\t' || c = '\n' || c = '\r'

/-- JS `String.prototype.trim`: strip whitespace from both ends. -/
def jsTrim (s : String) : String :=
  ⟨((s.data.dropWhile isJsWhitespace).reverse.dropWhile isJsWhitespace).reverse⟩

def isAsciiLetter (c : Char) : Bool :=
  ('a' ≤ c && c ≤ 'z') || ('A' ≤ c && c ≤ 'Z')

def isAsciiDigit (c : Char) : Bool :=
  '0' ≤ c && c ≤ '9'

/-- Lowercase hexadecimal digits of `n`, for `CSS.escape`'s code-point
    serialization. -/
def hexChars (n : Nat) : List Char := Nat.toDigits 16 n

/-- One step of the CSSOM `CSS.escape` algorithm: how the character `c` at
    index `i` of a string of length `len` whose first character is `first`
    is serialized. -/
def cssEscapeChar (len i : Nat) (first c : Char) : List Char :=
  if c = '\x00' then ['�']
  else if (1 ≤ c.toNat && c.toNat ≤ 0x1F) || c.toNat = 0x7F then
    '\\' :: (hexChars c.toNat ++ [' '])
  else if i = 0 && isAsciiDigit c then
    '\\' :: (hexChars c.toNat ++ [' '])
  else if i = 1 && isAsciiDigit c && first = '-' then
    '\\' :: (hexChars c.toNat ++ [' '])
  else if i = 0 && c = '-' && len = 1 then ['\\', '-']
  else if 0x80 ≤ c.toNat || c = '-' || c = '_' ||
          isAsciiDigit c || isAsciiLetter c then [c]
  else ['\\', c]

/-- The CSSOM `CSS.escape` function, used by the source on every id written
    into a `data-id` / `data-category-id` DOM attribute. -/
def cssEscape (s : String) : String :=
  let cs := s.data
  let first := cs.headD ' '
  ⟨(cs.enum.map (fun p => cssEscapeChar cs.length p.1 first p.2)).flatten⟩

/-- Tag-stripping core of `ModTree.stripHtml` (the source assigns the markup
    to a detached DIV's `innerHTML` and reads back `textContent`; for the
    entity-free inline markup the tree renders, that drops exactly the
    `<...>` tag spans). The `Bool` is "currently inside a tag". -/
def stripHtmlAux : Bool → List Char → List Char
  | _, [] => []
  | false, c :: cs => if c = '<' then stripHtmlAux true cs else c :: stripHtmlAux false cs
  | true, c :: cs => if c = '>' then stripHtmlAux false cs else stripHtmlAux true cs

/-- `ModTree.stripHtml`. -/
def stripHtml (html : String) : String := ⟨stripHtmlAux false html.data⟩

/-! ### `ModTree.parseSize` and its regex `/(\d+(\.\d+)?) (KB|MB|GB)/i` -/

/-- Greedy `\d+`-style split: the leading digits and the rest. -/
def takeDigits : List Char → List Char × List Char
  | [] => ([], [])
  | c :: cs =>
    if isAsciiDigit c then
      let p := takeDigits cs
      (c :: p.1, p.2)
    else ([], c :: cs)

def digitsToNat (l : List Char) : Nat :=
  l.foldl (fun a c => 10 * a + (c.toNat - 48)) 0

/-- JS `parseFloat` on a `\d+(\.\d+)?` token, modelled exactly over `ℚ`. -/
def decToRat (intPart fracPart : List Char) : ℚ :=
  (digitsToNat intPart : ℚ) + (digitsToNat fracPart : ℚ) / ((10 : ℚ) ^ fracPart.length)

/-- The `(KB|MB|GB)` alternative with the `/i` flag, already upper-cased as
    the source does with `match[3].toUpperCase()`. -/
def matchUnitAt : List Char → Option String
  | c1 :: c2 :: _ =>
    if c2.toLower = 'b' then
      if c1.toLower = 'k' then some "KB"
      else if c1.toLower = 'm' then some "MB"
      else if c1.toLower = 'g' then some "GB"
      else none
    else none
  | _ => none

/-- Try to match `(\d+(\.\d+)?) (KB|MB|GB)` starting exactly at the head of
    `s`, returning `parseFloat(match[1])` and the upper-cased `match[3]`.
    Greedy digits never need to backtrack here (the following pattern
    characters `.`/space are not digits); the one optional-group backtrack
    is the `noFrac` fallback. -/
def matchSizeAt (s : List Char) : Option (ℚ × String) :=
  let p := takeDigits s
  let ds := p.1
  let rest := p.2
  if ds.isEmpty then none
  else
    let noFrac : Option (ℚ × String) :=
      match rest with
      | ' ' :: r => (matchUnitAt r).map (fun u => (decToRat ds [], u))
      | _ => none
    match rest with
    | '.' :: r2 =>
      let q := takeDigits r2
      if q.1.isEmpty then noFrac
      else
        match q.2 with
        | ' ' :: r3 =>
          match matchUnitAt r3 with
          | some u => some (decToRat ds q.1, u)
          | none => noFrac
        | _ => noFrac
    | _ => noFrac

/-- Leftmost match of the size regex (JS `String.prototype.match` without
    the global flag). -/
def scanSize : List Char → Option (ℚ × String)
  | [] => none
  | c :: cs =>
    match matchSizeAt (c :: cs) with
    | some m => some m
    | none => scanSize cs

/-- `ModTree.parseSize`: display-form size string to a comparable byte
    count; `0` for falsy or unmatched input. -/
def parseSize (sizeStr : String) : ℚ :=
  if sizeStr = "" then 0
  else
    match scanSize sizeStr.data with
    | none => 0
    | some m =>
      if m.2 = "KB" then m.1 * 1024
      else if m.2 = "MB" then m.1 * 1024 * 1024
      else if m.2 = "GB" then m.1 * 1024 * 1024 * 1024
      else m.1

/-! ### Entities -/

/-- `TreeItem` of `modTree.ts` (the mod record). -/
structure TreeItem where
  id : String
  name : String
  flags : String := ""
  location : String := ""
  creator : String := ""
  type : String := ""
  size : String := ""
  created : Int := 0
  updated : Int := 0
  is_checked : Bool := false
deriving DecidableEq

/-- `TreeCategory` of `modTree.ts`. -/
structure TreeCategory where
  id : String
  name : String
  children : List TreeItem
deriving DecidableEq

/-- `ListItem` of `packList.ts` (a load-order row). -/
structure ListItem where
  id : String
  pack : String
  type : String
  order : Int
  location : String
  steam_id : String := ""
deriving DecidableEq

/-! ### Sort engine -/

/-- The `'asc' | 'desc'` union type of both views' `sortDirection`. -/
inductive SortDir where
  | asc
  | desc
deriving DecidableEq

/-- Header-click direction flip (`'asc' ? 'desc' : 'asc'`). -/
def SortDir.flipDir : SortDir → SortDir
  | .asc => .desc
  | .desc => .asc

/-- The `string | number` type of the comparator locals `valueA`/`valueB`. -/
inductive SortVal where
  | str : String → SortVal
  | num : ℚ → SortVal
deriving DecidableEq

def SortVal.isStr : SortVal → Bool
  | .str _ => true
  | .num _ => false

/-- JS `<` between two comparator values. All reachable comparisons are
    between values of the same variant; on mixed variants JS `<` coerces and
    here yields `false` both ways for the values this code produces. -/
def SortVal.jsLt : SortVal → SortVal → Bool
  | .str a, .str b => decide (a < b)
  | .num a, .num b => decide (a < b)
  | _, _ => false

/-- The shared comparator tail of `ModTree.sortItems` / `PackList.sortItems`:
    `-1`/`1`/`0` by `<` on the extracted values, sign-flipped for `desc`. -/
def cmpSortVals (dir : SortDir) (va vb : SortVal) : Int :=
  if va.jsLt vb then (match dir with | .asc => -1 | .desc => 1)
  else if vb.jsLt va then (match dir with | .asc => 1 | .desc => -1)
  else 0

/-- Value extraction of `ModTree.sortItems`' `switch (field)`. The JS
    `x || ''` guards are identity here because the record fields are total
    strings. -/
def treeSortVal (field : String) (a : TreeItem) : SortVal :=
  if field = "name" then .str (jsToLower (stripHtml a.name))
  else if field = "type" then .str (jsToLower a.type)
  else if field = "creator" then .str (jsToLower a.creator)
  else if field = "size" then .num (parseSize a.size)
  else .str (jsToLower a.name)

/-- The full comparator passed to `items.sort` in `ModTree.sortItems`. -/
def treeCmp (field : String) (dir : SortDir) (a b : TreeItem) : Int :=
  cmpSortVals dir (treeSortVal field a) (treeSortVal field b)

/-- `ModTree.sortItems` (in-place stable JS sort, modelled functionally by
    stable insertion sort — all stable sorts agree for a consistent
    comparator). -/
def sortItems (items : List TreeItem) (field : String) (dir : SortDir) : List TreeItem :=
  items.insertionSort (fun a b => treeCmp field dir a b ≤ 0)

/-- Value extraction of `PackList.sortItems`' `switch (field)`. -/
def listSortVal (field : String) (a : ListItem) : SortVal :=
  if field = "pack" then .str (jsToLower a.pack)
  else if field = "type" then .str (jsToLower a.type)
  else if field = "order" then .num a.order
  else if field = "location" then .str (jsToLower a.location)
  else .num a.order

/-- The comparator passed to `items.sort` in `PackList.sortItems`. -/
def listCmp (field : String) (dir : SortDir) (a b : ListItem) : Int :=
  cmpSortVals dir (listSortVal field a) (listSortVal field b)

/-- `PackList.sortItems`. -/
def sortListItems (items : List ListItem) (field : String) (dir : SortDir) : List ListItem :=
  items.insertionSort (fun a b => listCmp field dir a b ≤ 0)

/-! ### Order facts about the comparators -/

/-- The string key the tree comparator extracts when the sort field is not
    `"size"` (reshaping of the `switch` for proofs). -/
def treeStrKey (field : String) (a : TreeItem) : String :=
  if field = "name" then jsToLower (stripHtml a.name)
  else if field = "type" then jsToLower a.type
  else if field = "creator" then jsToLower a.creator
  else jsToLower a.name

theorem treeSortVal_reshape (f : String) (a : TreeItem) :
    treeSortVal f a =
      if f = "size" then SortVal.num (parseSize a.size)
      else SortVal.str (treeStrKey f a) := by
  unfold treeSortVal treeStrKey
  by_cases h1 : f = "name" <;> by_cases h2 : f = "type" <;>
    by_cases h3 : f = "creator" <;> by_cases h4 : f = "size" <;>
    simp_all

/-- The string key the list comparator extracts when the sort field is not
    `"order"`. -/
def listStrKey (field : String) (a : ListItem) : String :=
  if field = "pack" then jsToLower a.pack
  else if field = "type" then jsToLower a.type
  else jsToLower a.location

theorem listSortVal_reshape (f : String) (a : ListItem) :
    listSortVal f a =
      if f = "pack" || f = "type" || f = "location" then SortVal.str (listStrKey f a)
      else SortVal.num (a.order : ℚ) := by
  unfold listSortVal listStrKey
  by_cases h1 : f = "pack" <;> by_cases h2 : f = "type" <;>
    by_cases h3 : f = "order" <;> by_cases h4 : f = "location" <;>
    simp_all

theorem cmpSortVals_self (d : SortDir) (v : SortVal) : cmpSortVals d v v = 0 := by
  cases v <;> simp [cmpSortVals, SortVal.jsLt]

theorem cmpSortVals_str_le_asc (a b : String) :
    (cmpSortVals .asc (.str a) (.str b) ≤ 0) ↔ a ≤ b := by
  simp only [cmpSortVals, SortVal.jsLt]
  rcases lt_trichotomy a b with h | h | h
  · simp [h, le_of_lt h]
  · subst h
    simp [lt_irrefl]
  · simp [h, lt_asymm h, not_le.mpr h]

theorem cmpSortVals_str_le_desc (a b : String) :
    (cmpSortVals .desc (.str a) (.str b) ≤ 0) ↔ b ≤ a := by
  simp only [cmpSortVals, SortVal.jsLt]
  rcases lt_trichotomy a b with h | h | h
  · simp [h, lt_asymm h, not_le.mpr h]
  · subst h
    simp [lt_irrefl]
  · simp [h, lt_asymm h, le_of_lt h]

theorem cmpSortVals_num_le_asc (a b : ℚ) :
    (cmpSortVals .asc (.num a) (.num b) ≤ 0) ↔ a ≤ b := by
  simp only [cmpSortVals, SortVal.jsLt]
  rcases lt_trichotomy a b with h | h | h
  · simp [h, le_of_lt h]
  · subst h
    simp [lt_irrefl]
  · simp [h, lt_asymm h, not_le.mpr h]

theorem cmpSortVals_num_le_desc (a b : ℚ) :
    (cmpSortVals .desc (.num a) (.num b) ≤ 0) ↔ b ≤ a := by
  simp only [cmpSortVals, SortVal.jsLt]
  rcases lt_trichotomy a b with h | h | h
  · simp [h, lt_asymm h, not_le.mpr h]
  · subst h
    simp [lt_irrefl]
  · simp [h, lt_asymm h, le_of_lt h]

/-- Transitivity of the "comparator says not-after" relation, on values of a
    common variant (the only comparisons a fixed sort field produces). -/
theorem cmpSortVals_le_trans (d : SortDir) (va vb vc : SortVal)
    (hk1 : va.isStr = vb.isStr) (hk2 : vb.isStr = vc.isStr)
    (h1 : cmpSortVals d va vb ≤ 0) (h2 : cmpSortVals d vb vc ≤ 0) :
    cmpSortVals d va vc ≤ 0 := by
  cases va <;> cases vb <;> cases vc <;>
    simp only [SortVal.isStr] at hk1 hk2
  any_goals exact Bool.noConfusion hk1
  any_goals exact Bool.noConfusion hk2
  · cases d
    · rw [cmpSortVals_str_le_asc] at h1 h2 ⊢
      exact le_trans h1 h2
    · rw [cmpSortVals_str_le_desc] at h1 h2 ⊢
      exact le_trans h2 h1
  · cases d
    · rw [cmpSortVals_num_le_asc] at h1 h2 ⊢
      exact le_trans h1 h2
    · rw [cmpSortVals_num_le_desc] at h1 h2 ⊢
      exact le_trans h2 h1

/-- Totality of the "comparator says not-after" relation on values of a
    common variant. -/
theorem cmpSortVals_le_total (d : SortDir) (va vb : SortVal)
    (hk : va.isStr = vb.isStr) :
    (cmpSortVals d va vb ≤ 0) ∨ (cmpSortVals d vb va ≤ 0) := by
  cases va <;> cases vb <;>
    simp only [SortVal.isStr] at hk
  any_goals exact Bool.noConfusion hk
  · cases d
    · rw [cmpSortVals_str_le_asc, cmpSortVals_str_le_asc]
      exact le_total _ _
    · rw [cmpSortVals_str_le_desc, cmpSortVals_str_le_desc]
      exact le_total _ _
  · cases d
    · rw [cmpSortVals_num_le_asc, cmpSortVals_num_le_asc]
      exact le_total _ _
    · rw [cmpSortVals_num_le_desc, cmpSortVals_num_le_desc]
      exact le_total _ _

theorem treeSortVal_isStr_eq (f : String) (a b : TreeItem) :
    (treeSortVal f a).isStr = (treeSortVal f b).isStr := by
  rw [treeSortVal_reshape f a, treeSortVal_reshape f b]
  by_cases hf : f = "size" <;> simp [hf, SortVal.isStr]

theorem listSortVal_isStr_eq (f : String) (a b : ListItem) :
    (listSortVal f a).isStr = (listSortVal f b).isStr := by
  rw [listSortVal_reshape f a, listSortVal_reshape f b]
  by_cases hf : (decide (f = "pack") || decide (f = "type") || decide (f = "location")) = true <;>
    simp [hf, SortVal.isStr]

theorem treeCmp_le_trans (f : String) (d : SortDir) (a b c : TreeItem)
    (h1 : treeCmp f d a b ≤ 0) (h2 : treeCmp f d b c ≤ 0) :
    treeCmp f d a c ≤ 0 :=
  cmpSortVals_le_trans d _ _ _ (treeSortVal_isStr_eq f a b) (treeSortVal_isStr_eq f b c) h1 h2

theorem treeCmp_le_total (f : String) (d : SortDir) (a b : TreeItem) :
    (treeCmp f d a b ≤ 0) ∨ (treeCmp f d b a ≤ 0) :=
  cmpSortVals_le_total d _ _ (treeSortVal_isStr_eq f a b)

theorem listCmp_le_trans (f : String) (d : SortDir) (a b c : ListItem)
    (h1 : listCmp f d a b ≤ 0) (h2 : listCmp f d b c ≤ 0) :
    listCmp f d a c ≤ 0 :=
  cmpSortVals_le_trans d _ _ _ (listSortVal_isStr_eq f a b) (listSortVal_isStr_eq f b c) h1 h2

theorem listCmp_le_total (f : String) (d : SortDir) (a b : ListItem) :
    (listCmp f d a b ≤ 0) ∨ (listCmp f d b a ≤ 0) :=
  cmpSortVals_le_total d _ _ (listSortVal_isStr_eq f a b)

/-- Stability consequence used by the claims: a stable sort does not disturb
    the relative order of any set of mutually-tied elements. -/
theorem insertionSort_filter_ties {α : Type} (r : α → α → Prop) [DecidableRel r]
    (l : List α) (p : α → Bool) (hp : ∀ x y : α, p x → p y → r x y) :
    (l.insertionSort r).filter p = l.filter p := by
  have hpw : (l.filter p).Pairwise r :=
    List.pairwise_of_forall_mem_list
      (fun a ha b hb => hp a b (List.of_mem_filter ha) (List.of_mem_filter hb))
  have hsub : List.Sublist (l.filter p) (l.insertionSort r) :=
    List.sublist_insertionSort hpw (List.filter_sublist l)
  have h2 : (l.filter p).filter p = l.filter p := by
    simp [List.filter_filter]
  have h3 : List.Sublist (l.filter p) ((l.insertionSort r).filter p) := h2 ▸ hsub.filter p
  have hlen : ((l.insertionSort r).filter p).length = (l.filter p).length :=
    ((List.perm_insertionSort r l).filter p).length_eq
  exact (h3.eq_of_length hlen.symm).symm

/-- C7: The size parser maps a display-form size string to a byte count with
    KB = 1024, MB = 1024², GB = 1024³, decimal fractions honored
    (`parseSize "1.5 MB" = 1.5 * 1024 * 1024`), and returns 0 on every
    unparseable input, including the empty string and `"garbage"`. -/
theorem claim_C7_parseSize :
    parseSize "1.5 MB" = (1.5 : ℚ) * 1024 * 1024 ∧
    parseSize "1.5 KB" = (1.5 : ℚ) * 1024 ∧
    parseSize "1.5 GB" = (1.5 : ℚ) * 1024 * 1024 * 1024 ∧
    parseSize "" = 0 ∧
    parseSize "garbage" = 0 ∧
    (∀ s : String, scanSize s.data = none → parseSize s = 0) := by
  refine ⟨?_, ?_, ?_, by decide, ?_, ?_⟩
  · simp [parseSize, scanSize, matchSizeAt, takeDigits, matchUnitAt, decToRat,
      digitsToNat, isAsciiDigit]
    norm_num
  · simp [parseSize, scanSize, matchSizeAt, takeDigits, matchUnitAt, decToRat,
      digitsToNat, isAsciiDigit]
    norm_num
  · simp [parseSize, scanSize, matchSizeAt, takeDigits, matchUnitAt, decToRat,
      digitsToNat, isAsciiDigit]
    norm_num
  · simp [parseSize, scanSize, matchSizeAt, takeDigits, matchUnitAt, isAsciiDigit]
  · intro s h
    unfold parseSize
    by_cases hs : s = "" <;> simp [hs, h]

/-- Witness for C7 at a concrete unparseable input. -/
theorem claim_C7_parseSize_witness : parseSize "totally unparseable" = 0 :=
  claim_C7_parseSize.2.2.2.2.2 "totally unparseable" (by decide)

/-- C8: For every sort field the comparator returns 0 on equal keys, and
    sorting by a field then re-sorting with the direction flipped and flipped
    back returns every set of equal-key ties to its original relative
    order. -/
theorem claim_C8_sort_stability :
    (∀ (field : String) (dir : SortDir) (a b : TreeItem),
        treeSortVal field a = treeSortVal field b → treeCmp field dir a b = 0) ∧
    (∀ (field : String) (dir : SortDir) (l : List TreeItem) (k : SortVal),
        (sortItems (sortItems (sortItems l field dir) field dir.flipDir) field dir).filter
            (fun x => decide (treeSortVal field x = k)) =
          l.filter (fun x => decide (treeSortVal field x = k))) := by
  constructor
  · intro field dir a b h
    unfold treeCmp
    rw [h]
    exact cmpSortVals_self dir _
  · intro field dir l k
    have hp : ∀ (d : SortDir) (x y : TreeItem),
        decide (treeSortVal field x = k) → decide (treeSortVal field y = k) →
        treeCmp field d x y ≤ 0 := by
      intro d x y hx hy
      have hx' : treeSortVal field x = k := of_decide_eq_true hx
      have hy' : treeSortVal field y = k := of_decide_eq_true hy
      have hz : treeCmp field d x y = 0 := by
        unfold treeCmp
        rw [hx', hy']
        exact cmpSortVals_self d _
      rw [hz]
    unfold sortItems
    rw [insertionSort_filter_ties _ _ _ (hp dir),
      insertionSort_filter_ties _ _ _ (hp dir.flipDir),
      insertionSort_filter_ties _ _ _ (hp dir)]

/-- Witness for C8: the comparator really ties two concrete equal-key items. -/
theorem claim_C8_sort_stability_witness :
    treeCmp "name" SortDir.asc
      { id := "a", name := "Same", type := "movie" }
      { id := "b", name := "Same", type := "pack" } = 0 :=
  claim_C8_sort_stability.1 "name" SortDir.asc _ _ rfl

/-! ### Settings manager -/

/-- The persisted app-settings fields the modelled code reads and writes.
    `tree_open_state` is the expansion map keyed by category id. -/
structure AppSettings where
  tree_open_state : List (String × Bool) := []
  tree_filter_value : String := ""
  selected_tree_item : String := ""
  selected_tree_category : String := ""
  list_filter_value : String := ""
deriving DecidableEq

/-- The settings manager: the live `appSettings` object plus the copy last
    persisted by `saveSettings()`. -/
structure SettingsState where
  appSettings : AppSettings := {}
  saved : AppSettings := {}
deriving DecidableEq

/-- `settingsManager.saveSettings()`. -/
def saveSettings (s : SettingsState) : SettingsState :=
  { s with saved := s.appSettings }

/-- Write `m[k] = v` in a JS-object-as-map (insertion order kept). -/
def tosSet (m : List (String × Bool)) (k : String) (v : Bool) : List (String × Bool) :=
  if m.any (fun p => p.1 = k) then m.map (fun p => if p.1 = k then (k, v) else p)
  else m ++ [(k, v)]

/-- `delete m[k]`. -/
def tosDel (m : List (String × Bool)) (k : String) : List (String × Bool) :=
  m.filter (fun p => p.1 ≠ k)

/-! ### The pack list (`packList.ts`) -/

/-- A rendered load-order row: the `ListItem` it renders (its `order` cell
    shows `item.order` verbatim) and its CSS state. -/
structure RowEl where
  item : ListItem
  hidden : Bool := false
  selected : Bool := false
deriving DecidableEq

/-- The `PackList` view state: rendered rows in document order (also the
    `listElements` map), the active sort, the shared settings manager and
    the status bar text. -/
structure PackListState where
  rows : List RowEl
  currentSortField : String := "order"
  sortDirection : SortDir := .asc
  settings : SettingsState := {}
  statusMessage : String := ""
deriving DecidableEq

/-- `PackList.filterListItems`. -/
def filterListItems (st : PackListState) (searchText : String) : PackListState :=
  let normalizedSearchText := jsTrim (jsToLower searchText)
  let st := { st with settings := saveSettings { st.settings with appSettings :=
      { st.settings.appSettings with list_filter_value := normalizedSearchText } } }
  if normalizedSearchText = "" then
    { st with rows := st.rows.map (fun r => { r with hidden := false }) }
  else
    { st with rows := st.rows.map (fun r =>
        if jsIncludes r.item.pack normalizedSearchText ||
           jsIncludes r.item.type normalizedSearchText ||
           jsIncludes r.item.location normalizedSearchText
        then { r with hidden := false }
        else { r with hidden := true }) }

/-- `PackList.renderPackList`: clear the container, rebuild every row from
    `listData` sorted by the active sort, then reapply the persisted
    filter. -/
def renderPackList (st : PackListState) (listData : List ListItem) : PackListState :=
  let sortedItems := sortListItems listData st.currentSortField st.sortDirection
  let st := { st with rows := sortedItems.map (fun it => { item := it }) }
  filterListItems st st.settings.appSettings.list_filter_value

/-- Put the `selected` class on the row `listElements.get itemId` points at:
    the last-rendered row with that id (a later `listElements.set` with the
    same id overwrites the map entry). -/
def markSelectedLast : List RowEl → String → List RowEl
  | [], _ => []
  | r :: rs, itemId =>
    if rs.any (fun x => x.item.id = itemId) then r :: markSelectedLast rs itemId
    else if r.item.id = itemId then { r with selected := true } :: rs
    else r :: markSelectedLast rs itemId

/-- `PackList.selectListItem`. -/
def selectListItem (st : PackListState) (itemId : String) : PackListState :=
  { st with rows := markSelectedLast (st.rows.map (fun r => { r with selected := false })) itemId }

/-- The `LoadOrderDirectionMove` enum. -/
inductive LoadOrderDirectionMove where
  | Up
  | Down
deriving DecidableEq

def LoadOrderDirectionMove.text : LoadOrderDirectionMove → String
  | .Up => "Up"
  | .Down => "Down"

/-- `PackList.movePackInLoadOrderInDirection`: the awaited backend call is
    modelled by its result. On success the whole list is re-rendered from
    the returned array; on rejection the error is only logged. -/
def movePackInLoadOrderInDirection (st : PackListState) (modId : String)
    (direction : LoadOrderDirectionMove) (backend : Except String (List ListItem)) :
    PackListState :=
  match backend with
  | .error _ => st
  | .ok result =>
    let st := renderPackList st result
    let st := selectListItem st modId
    { st with statusMessage := "Mod " ++ modId ++ " moved " ++ direction.text }

/-- `PackList.movePackInLoadOrder` (drag-and-drop load-order move). -/
def movePackInLoadOrder (st : PackListState) (sourceId targetId : String)
    (backend : Except String (List ListItem)) : PackListState :=
  match backend, targetId with
  | .error _, _ => st
  | .ok result, _ =>
    let st := renderPackList st result
    let st := selectListItem st sourceId
    { st with statusMessage := "Mods reordered" }

/-! ### The mod tree (`modTree.ts`): DOM and state model -/

/-- A rendered mod row: its `data-id` (the CSS-escaped mod id), its
    `data-category-id` attribute, and its CSS classes. -/
structure ItemEl where
  id : String
  categoryId : String
  hidden : Bool := false
  selected : Bool := false
deriving DecidableEq

/-- A rendered category element: `data-id` (CSS-escaped), `data-name`, its
    own CSS classes, and the classes of its `.category-items` container. -/
structure CatEl where
  id : String
  name : String
  hidden : Bool := false
  selected : Bool := false
  expanded : Bool := false
  itemsHidden : Bool := false
  itemsExpanded : Bool := false
deriving DecidableEq

/-- A category element together with its children container's rows in
    document order. -/
structure CatNode where
  el : CatEl
  items : List ItemEl
deriving DecidableEq

/-- The `ModTree` state. `dom` is the rendered tree in document order; it
    also realizes the `categoryElements`/`itemElements` maps (keyed by the
    escaped ids stored in `data-id`) and the `children-<id>` containers. -/
structure TreeState where
  dom : List CatNode
  categories : List TreeCategory
  selectedItems : List String := []
  selectedCategories : List String := []
  currentSortField : String := "name"
  sortDirection : SortDir := .asc
  settings : SettingsState := {}
  statusMessage : String := ""
deriving DecidableEq

/-- `document.querySelectorAll('.tree-item')`: every rendered mod row in
    document order (rows hidden by the filter included). -/
def domItems (st : TreeState) : List ItemEl := (st.dom.map CatNode.items).flatten

/-- `itemElements.get id`. -/
def getItemEl (st : TreeState) (id : String) : Option ItemEl :=
  (domItems st).find? (fun it => it.id = id)

/-- `categoryElements.get id` (the category element and, in the same node,
    its `children-<id>` container). -/
def getCatNode (st : TreeState) (id : String) : Option CatNode :=
  st.dom.find? (fun cn => cn.el.id = id)

/-- Apply `f` to the mod row with `data-id = id`, wherever it is. -/
def updItem (dom : List CatNode) (id : String) (f : ItemEl → ItemEl) : List CatNode :=
  dom.map (fun cn =>
    { cn with items := cn.items.map (fun it => if it.id = id then f it else it) })

/-- Apply `f` to the category element with `data-id = id`. -/
def updCat (dom : List CatNode) (id : String) (f : CatEl → CatEl) : List CatNode :=
  dom.map (fun cn => if cn.el.id = id then { cn with el := f cn.el } else cn)

/-- `ModTree.toggleCategoryExpansion`. In this DOM model the children
    container exists exactly when the category element does, so the two
    early-return lookups coincide. -/
def toggleCategoryExpansion (st : TreeState) (categoryId : String)
    (forceState : Option Bool) : TreeState :=
  match getCatNode st categoryId with
  | none => st
  | some cn =>
    let isExpanded := cn.el.expanded
    let newState := forceState.getD (!isExpanded)
    let dom := updCat st.dom categoryId
      (fun el => { el with expanded := newState, itemsExpanded := newState })
    let settings := saveSettings
      { st.settings with appSettings := { st.settings.appSettings with
          tree_open_state := tosSet st.settings.appSettings.tree_open_state categoryId newState } }
    { st with dom := dom, settings := settings }

/-- The modifier-free prologue of both select methods: drop the `selected`
    class everywhere and clear both selection sets. -/
def clearSelections (st : TreeState) : TreeState :=
  { st with
    dom := st.dom.map (fun cn =>
      { cn with el := { cn.el with selected := false },
                items := cn.items.map (fun it => { it with selected := false }) }),
    selectedItems := [],
    selectedCategories := [] }

/-- One pass of the shift-range loop over the static `.tree-item` snapshot
    `items`: `items[i]` is accessed, and when its `data-id` is truthy it is
    added to the selection and given the `selected` class. -/
def shiftSelectStep (items : List ItemEl) (s : TreeState) (i : Int) : TreeState :=
  match jsIdx items i with
  | some it =>
    if it.id ≠ "" then
      { s with selectedItems := setAdd s.selectedItems it.id,
               dom := updItem s.dom it.id (fun x => { x with selected := true }) }
    else s
  | none => s

/-- One pass of the shift-range loop over the static `.tree-category`
    snapshot. -/
def shiftCatSelectStep (cats : List CatNode) (s : TreeState) (i : Int) : TreeState :=
  match jsIdx cats i with
  | some cn =>
    if cn.el.id ≠ "" then
      { s with selectedCategories := setAdd s.selectedCategories cn.el.id,
               dom := updCat s.dom cn.el.id (fun el => { el with selected := true }) }
    else s
  | none => s

/-- The selection-updating branch of `selectTreeItem` (shift-range,
    ctrl-toggle, or plain add), applied after the prologue. -/
def selectTreeItemCore (st : TreeState) (itemId : String)
    (isCtrlPressed isShiftPressed : Bool) : TreeState :=
  if isShiftPressed && decide (0 < st.selectedItems.length) then
    (intRange
        (min (jsFindIdx (fun it => it.id = st.selectedItems.getLastD "") (domItems st))
          (jsFindIdx (fun it => it.id = itemId) (domItems st)))
        (max (jsFindIdx (fun it => it.id = st.selectedItems.getLastD "") (domItems st))
          (jsFindIdx (fun it => it.id = itemId) (domItems st)))).foldl
      (shiftSelectStep (domItems st)) st
  else if isCtrlPressed then
    if itemId ∈ st.selectedItems then
      { st with selectedItems := setDel st.selectedItems itemId,
                dom := updItem st.dom itemId (fun x => { x with selected := false }) }
    else
      { st with selectedItems := setAdd st.selectedItems itemId,
                dom := updItem st.dom itemId (fun x => { x with selected := true }) }
  else
    { st with selectedItems := setAdd st.selectedItems itemId,
              dom := updItem st.dom itemId (fun x => { x with selected := true }) }

/-- The `closest('.tree-category')` step of `selectTreeItem`: the
    containing category's container is expanded when it carries the filter
    `hidden` class (the source checks that class, not the expansion one). -/
def selectTreeItemExpand (st : TreeState) (itemId : String) : TreeState :=
  match st.dom.find? (fun cn => cn.items.any (fun it => it.id = itemId)) with
  | some cn =>
    if cn.el.id ≠ "" then
      if cn.el.itemsHidden then toggleCategoryExpansion st cn.el.id none else st
    else st
  | none => st

/-- The single-mod-selected persistence at the end of `selectTreeItem`
    (`syncListWithTreeSelection` touches the pack-list view only). -/
def selectTreeItemFinish (st : TreeState) (itemId : String) : TreeState :=
  if st.selectedItems.length = 1 then
    { st with settings := saveSettings { st.settings with appSettings :=
        { st.settings.appSettings with selected_tree_item := itemId } } }
  else st

/-- The tail of `selectTreeItem`: the expand step, then the
    single-selection persistence. -/
def selectTreeItemEpilogue (st : TreeState) (itemId : String) : TreeState :=
  selectTreeItemFinish (selectTreeItemExpand st itemId) itemId

/-- `selectTreeItem` after its modifier-free clearing prologue. -/
def selectTreeItemAfterClear (st : TreeState) (itemId : String)
    (isCtrlPressed isShiftPressed : Bool) : TreeState :=
  match getItemEl st itemId with
  | none => st
  | some _ =>
    selectTreeItemEpilogue (selectTreeItemCore st itemId isCtrlPressed isShiftPressed) itemId

/-- `ModTree.selectTreeItem`. The range branch indexes the snapshot of ALL
    `.tree-item` rows in document order — rows hidden by the filter
    included. -/
def selectTreeItem (st : TreeState) (itemId : String)
    (isCtrlPressed isShiftPressed : Bool) : TreeState :=
  selectTreeItemAfterClear
    (if !isCtrlPressed && !isShiftPressed then clearSelections st else st)
    itemId isCtrlPressed isShiftPressed

/-- The selection-updating branch of `selectCategory`. -/
def selectCategoryCore (st : TreeState) (categoryId : String)
    (isCtrlPressed isShiftPressed : Bool) : TreeState :=
  if isShiftPressed && decide (0 < st.selectedCategories.length) then
    (intRange
        (min (jsFindIdx (fun cn => cn.el.id = st.selectedCategories.getLastD "") st.dom)
          (jsFindIdx (fun cn => cn.el.id = categoryId) st.dom))
        (max (jsFindIdx (fun cn => cn.el.id = st.selectedCategories.getLastD "") st.dom)
          (jsFindIdx (fun cn => cn.el.id = categoryId) st.dom))).foldl
      (shiftCatSelectStep st.dom) st
  else if isCtrlPressed then
    if categoryId ∈ st.selectedCategories then
      { st with selectedCategories := setDel st.selectedCategories categoryId,
                dom := updCat st.dom categoryId (fun el => { el with selected := false }) }
    else
      { st with selectedCategories := setAdd st.selectedCategories categoryId,
                dom := updCat st.dom categoryId (fun el => { el with selected := true }) }
  else
    { st with selectedCategories := setAdd st.selectedCategories categoryId,
              dom := updCat st.dom categoryId (fun el => { el with selected := true }) }

/-- The single-category-selected persistence at the end of
    `selectCategory`. -/
def selectCategoryFinish (st : TreeState) (categoryId : String) : TreeState :=
  if st.selectedCategories.length = 1 then
    { st with settings := saveSettings { st.settings with appSettings :=
        { st.settings.appSettings with selected_tree_category := categoryId } } }
  else st

/-- `selectCategory` after its modifier-free clearing prologue. -/
def selectCategoryAfterClear (st : TreeState) (categoryId : String)
    (isCtrlPressed isShiftPressed : Bool) : TreeState :=
  match getCatNode st categoryId with
  | none => st
  | some _ =>
    selectCategoryFinish (selectCategoryCore st categoryId isCtrlPressed isShiftPressed)
      categoryId

/-- `ModTree.selectCategory`. -/
def selectCategory (st : TreeState) (categoryId : String)
    (isCtrlPressed isShiftPressed : Bool) : TreeState :=
  selectCategoryAfterClear
    (if !isCtrlPressed && !isShiftPressed then clearSelections st else st)
    categoryId isCtrlPressed isShiftPressed

/-- The empty-filter branch of `filterTreeItems`, per node: drop `hidden`
    from the category element, its children container and all its rows. -/
def showAllNode (cn : CatNode) : CatNode :=
  { cn with el := { cn.el with hidden := false, itemsHidden := false },
            items := cn.items.map (fun it => { it with hidden := false }) }

/-- The hide-everything prologue of the non-empty filter branch, per node:
    add `hidden` to the category element, its children container and all
    its rows. -/
def hideAllNode (cn : CatNode) : CatNode :=
  { cn with el := { cn.el with hidden := true, itemsHidden := true },
            items := cn.items.map (fun it => { it with hidden := true }) }

/-- One pass of `filterTreeItems`' first loop, for a mod row whose id
    matched: unhide the row and its category's `children-<id>` container. -/
def showMatchingItemStep (s : TreeState) (it : ItemEl) : TreeState :=
  { s with dom :=
      (updCat (updItem s.dom it.id (fun x => { x with hidden := false }))
        it.categoryId (fun el => { el with itemsHidden := false })) }

/-- One pass of `filterTreeItems`' `categoriesToShow` loop: unhide the
    category and force-expand it. -/
def showCategoryStep (s : TreeState) (categoryId : String) : TreeState :=
  match getCatNode s categoryId with
  | some _ =>
    toggleCategoryExpansion
      { s with dom := updCat s.dom categoryId (fun el => { el with hidden := false }) }
      categoryId (some true)
  | none => s

/-- The container-unhide and force-expand step of the category-name loop
    (guarded by `if (childrenContainer)`). -/
def showNameMatchExpand (s : TreeState) (categoryId : String) : TreeState :=
  match getCatNode s categoryId with
  | some _ =>
    toggleCategoryExpansion
      { s with dom := updCat s.dom categoryId (fun el => { el with itemsHidden := false }) }
      categoryId (some true)
  | none => s

/-- The show-all-children step of the category-name loop. -/
def showNameMatchUnhideItems (s : TreeState) (categoryId : String) : TreeState :=
  { s with dom := s.dom.map (fun cn =>
      { cn with items := cn.items.map (fun it =>
          if it.categoryId = categoryId then { it with hidden := false } else it) }) }

/-- One pass of `filterTreeItems`' category-name loop for the category with
    escaped id `p.1` and `data-name` `p.2`: when the name matches, unhide
    the category, unhide and force-expand its container, and unhide all rows
    carrying its `data-category-id`. -/
def showNameMatchStep (normalizedSearchText : String) (s : TreeState)
    (p : String × String) : TreeState :=
  if jsIncludes p.2 normalizedSearchText then
    showNameMatchUnhideItems
      (showNameMatchExpand
        { s with dom := updCat s.dom p.1 (fun el => { el with hidden := false }) } p.1)
      p.1
  else s

/-- `ModTree.filterTreeItems`. -/
def filterTreeItems (st : TreeState) (searchText : String) : TreeState :=
  let normalizedSearchText := jsTrim (jsToLower searchText)
  let st := { st with settings := saveSettings { st.settings with appSettings :=
      { st.settings.appSettings with tree_filter_value := normalizedSearchText } } }
  if normalizedSearchText = "" then
    { st with dom := st.dom.map showAllNode }
  else
    let st := { st with dom := st.dom.map hideAllNode }
    let matching := (domItems st).filter (fun it => jsIncludes it.id normalizedSearchText)
    let st := matching.foldl showMatchingItemStep st
    let categoriesToShow := matching.foldl (fun acc it => setAdd acc it.categoryId) []
    let st := categoriesToShow.foldl showCategoryStep st
    let catKeys := st.dom.map (fun cn => (cn.el.id, cn.el.name))
    catKeys.foldl (showNameMatchStep normalizedSearchText) st

/-- Move a category node in front of another (`container.insertBefore`). -/
def insertBeforeId : List CatNode → String → CatNode → List CatNode
  | [], _, _ => []
  | cn :: rest, targetId, node =>
    if cn.el.id = targetId then node :: cn :: rest
    else cn :: insertBeforeId rest targetId node

/-- `ModTree.handleCategoryReorder`. The awaited `reorder_categories` call
    is modelled by its result; every local mutation sits after the `await`,
    and the `catch` only logs and shows a status message. -/
def handleCategoryReorder (st : TreeState) (sourceId targetId : String)
    (backend : Except String Unit) : TreeState :=
  let st := { st with statusMessage := "Reordering categories..." }
  match backend with
  | .error e => { st with statusMessage := "Error reordering categories: " ++ e }
  | .ok _ =>
    let sourceIndex := jsFindIdx (fun c => c.id = sourceId) st.categories
    let targetIndex0 := jsFindIdx (fun c => c.id = targetId) st.categories
    let targetIndex := if targetIndex0 > sourceIndex then targetIndex0 - 1 else targetIndex0
    let spliced := jsSpliceRemove1 st.categories sourceIndex
    let categories :=
      match spliced.2 with
      | some movedCategory => jsSpliceInsert spliced.1 targetIndex movedCategory
      | none => spliced.1
      -- (`spliced.2 = none` only for an empty array, where JS would insert
      -- `undefined`; unreachable in the states the claims quantify over)
    let dom :=
      match getCatNode st sourceId, getCatNode st targetId with
      | some sourceCat, some _ =>
        insertBeforeId (st.dom.filter (fun cn => cn.el.id ≠ sourceId)) targetId sourceCat
      | _, _ => st.dom
    { st with categories := categories, dom := dom,
              statusMessage := "Categories reordered successfully" }

/-- Thread a JS `try` body through a list: `.error s` models an exception
    thrown with the mutations made so far (the `catch` decides what to keep). -/
def exceptFoldl {σ α : Type} (f : σ → α → Except σ σ) : σ → List α → Except σ σ
  | s, [] => .ok s
  | s, a :: as =>
    match f s a with
    | .error e => .error e
    | .ok s' => exceptFoldl f s' as

/-- The ids actually sent to `handle_mod_category_change`
    (`const movedIds = sourceIds.filter(sourceId => sourceId !== targetId)`). -/
def movedIdsOf (sourceIds : List String) (targetId : String) : List String :=
  sourceIds.filter (fun sourceId => sourceId ≠ targetId)

/-- One pass of `handleModDrop`'s move loop for a payload id. The `as`
    casts in the source make the JS code throw when the cached categories
    disagree with the DOM attributes; `.error` carries the state at the
    throw point (the splice already applied when the faulting `push` comes
    after it). -/
def modDropStep (targetId : String) (st : TreeState) (sourceId : String) :
    Except TreeState TreeState :=
  match getItemEl st sourceId with
  | none => .ok st
  | some itemElement =>
    if itemElement.categoryId ≠ targetId then
      match st.categories.find? (fun c => cssEscape c.id = itemElement.categoryId) with
      | none => .error st -- `sourceCategory.children.findIndex` throws
      | some sourceCategory =>
        let modIndex := jsFindIdx (fun c => cssEscape c.id = sourceId) sourceCategory.children
        let spliced := jsSpliceRemove1 sourceCategory.children modIndex
        let categories1 := st.categories.map (fun c =>
          if c.id = sourceCategory.id then { c with children := spliced.1 } else c)
        match spliced.2 with
        | none => .error { st with categories := categories1 }
          -- `movedMod` is `undefined`: the later sort faults on it
        | some movedMod =>
          if categories1.any (fun c => c.id = targetId) then
            .ok { st with
                  categories := categories1.map (fun c =>
                    if c.id = targetId then { c with children := c.children ++ [movedMod] } else c),
                  dom := updItem st.dom sourceId (fun it => { it with categoryId := targetId }) }
          else .error { st with categories := categories1 }
            -- the hoisted `targetCategory` cast was `undefined`: `.children.push`
            -- throws, after the source splice
    else .ok st

/-- Remove the mod row with `data-id = itemId` from the tree
    (`itemElement.remove()`). -/
def removeItemEl (dom : List CatNode) (itemId : String) : List CatNode :=
  dom.map (fun cn => { cn with items := cn.items.filter (fun it => it.id ≠ itemId) })

/-- Append a mod row to the `.category-items` container of the category with
    `data-id = targetId`. -/
def appendItemTo (dom : List CatNode) (targetId : String) (it : ItemEl) : List CatNode :=
  dom.map (fun cn => if cn.el.id = targetId then { cn with items := cn.items ++ [it] } else cn)

/-- One pass of the sorted re-append loop shared by `handleModDrop` and
    `removeCategory`: look the row up by escaped id, detach it and append it
    to the target container (an absent row makes the `as HTMLElement` cast's
    `.remove()` throw). -/
def domMoveStep (targetId : String) (dom : List CatNode) (escapedId : String) :
    Except (List CatNode) (List CatNode) :=
  match (dom.map CatNode.items).flatten.find? (fun it => it.id = escapedId) with
  | none => .error dom
  | some itemElement => .ok (appendItemTo (removeItemEl dom escapedId) targetId itemElement)

/-- `ModTree.handleModDrop`. `backend` models the awaited
    `handle_mod_category_change` call, invoked with
    `movedIdsOf sourceIds targetId`; the `catch` only logs, keeping
    whatever mutations were made before a fault. -/
def handleModDrop (st : TreeState) (sourceIds : List String) (targetId : String)
    (backend : Except String Unit) : TreeState :=
  let st := { st with statusMessage :=
      "Moving " ++ toString sourceIds.length ++ " mods..." }
  match backend with
  | .error _ => st
  | .ok _ =>
    match getCatNode st targetId with
    | none => st
    | some _ =>
      match exceptFoldl (modDropStep targetId) st sourceIds with
      | .error faulted => faulted
      | .ok st1 =>
        match st1.categories.find? (fun c => c.id = targetId) with
        | none => st1 -- `[...targetCategory.children]` faults; caught
        | some targetCategory =>
          let sortedItems :=
            sortItems targetCategory.children st1.currentSortField st1.sortDirection
          match exceptFoldl (domMoveStep targetId) st1.dom
              (sortedItems.map (fun item => cssEscape item.id)) with
          | .error dom' => { st1 with dom := dom' }
          | .ok dom' =>
            { st1 with dom := dom',
                       statusMessage :=
                         toString sourceIds.length ++ " mods moved successfully" }

/-- `private defaultCategory = 'Unassigned'`. -/
def defaultCategoryId : String := "Unassigned"

/-- `ModTree.reparentMods`: rewrite the `data-category-id` attribute of
    every row carrying `originalName` to `newName` (attributes only, rows
    are not moved). -/
def reparentMods (dom : List CatNode) (originalName newName : String) : List CatNode :=
  dom.map (fun cn => { cn with items := cn.items.map (fun it =>
    if it.categoryId = originalName then { it with categoryId := newName } else it) })

/-- One pass of `removeCategory`'s first loop for a selected category id
    (the backend `remove_category` call is assumed to succeed — the claims
    about this method are premised on that). The hoisted `defaultCategory`
    reference is the object inside `categories`, so updating it in place by
    id is equivalent as long as the default category is not itself removed;
    when it does not exist at all, the `.push` on the `as TreeCategory` cast
    throws (`.error`). -/
def removeCategoryStep (st : TreeState) (categorySelected : String) :
    Except TreeState TreeState :=
  if st.categories.any (fun c => c.id = defaultCategoryId) then
    let modsToReparent :=
      ((st.categories.find? (fun c => c.id = categorySelected)).map
        TreeCategory.children).getD []
    let categories := st.categories.map (fun c =>
      if c.id = defaultCategoryId then { c with children := c.children ++ modsToReparent }
      else c)
    let categories :=
      (jsSpliceRemove1 categories (jsFindIdx (fun c => c.id = categorySelected) categories)).1
    .ok { st with
          categories := categories,
          dom := reparentMods st.dom categorySelected defaultCategoryId,
          settings := { st.settings with appSettings := { st.settings.appSettings with
            tree_open_state := tosDel st.settings.appSettings.tree_open_state categorySelected } } }
  else .error st

/-- One pass of `removeCategory`'s sorted re-append loop: move the row of
    `item` into the default category's container and delete the row's
    escaped id from `selectedCategories` (the source really deletes mod ids
    from the category selection set there). -/
def removeCategoryMoveStep (s : TreeState) (item : TreeItem) : TreeState :=
  let escapedId := cssEscape item.id
  let s :=
    match (s.dom.map CatNode.items).flatten.find? (fun it => it.id = escapedId) with
    | some itemElement =>
      { s with dom := appendItemTo (removeItemEl s.dom escapedId) defaultCategoryId itemElement }
    | none => s -- the `as HTMLElement` cast would make `.remove()` throw
  { s with selectedCategories := setDel s.selectedCategories escapedId }

/-- `ModTree.removeCategory` (each backend `remove_category` call
    succeeding). A JS exception in the loop is caught and surfaced as the
    catch's status message (its text abstracted as `TypeError`). -/
def removeCategory (st : TreeState) : TreeState :=
  if st.selectedCategories.length = 0 then
    { st with statusMessage := "No category selected." }
  else
    match exceptFoldl removeCategoryStep st st.selectedCategories with
    | .error faulted => { faulted with statusMessage := "Error removing categories: TypeError" }
    | .ok st1 =>
      let st2 := { st1 with settings := saveSettings { st1.settings with appSettings :=
          { st1.settings.appSettings with
            tree_open_state :=
              tosSet st1.settings.appSettings.tree_open_state defaultCategoryId true } } }
      match st2.categories.find? (fun c => c.id = defaultCategoryId) with
      | none => { st2 with statusMessage := "Error removing categories: TypeError" }
        -- `[...defaultCategory.children]` faults (unreachable: the loop ran)
      | some defaultCategory =>
        let sortedItems :=
          sortItems defaultCategory.children st2.currentSortField st2.sortDirection
        if st2.dom.any (fun cn => cn.el.id = defaultCategoryId) then
          let st3 := sortedItems.foldl removeCategoryMoveStep st2
          let dom4 := st3.selectedCategories.foldl
            (fun dom categorySelected => dom.filter (fun cn => cn.el.id ≠ categorySelected))
            st3.dom
          { st3 with dom := dom4, statusMessage := "Categories removed successfully" }
        else { st2 with statusMessage := "Error removing categories: TypeError" }
          -- the `as HTMLElement` cast on the default category element faults

/-! ### Claims about the pack list -/

theorem map_item_of_map (f : RowEl → RowEl) (hf : ∀ r, (f r).item = r.item)
    (rows : List RowEl) :
    (rows.map f).map (fun r => r.item) = rows.map (fun r => r.item) := by
  rw [List.map_map]
  exact List.map_congr_left (fun r _ => hf r)

theorem filterListItems_items (st : PackListState) (s : String) :
    (filterListItems st s).rows.map (fun r => r.item) = st.rows.map (fun r => r.item) := by
  unfold filterListItems
  by_cases h : jsTrim (jsToLower s) = "" <;>
    simp only [h, if_true, if_false, ite_true, ite_false]
  · exact map_item_of_map (fun r => { r with hidden := false }) (fun r => rfl) st.rows
  · refine map_item_of_map _ (fun r => ?_) st.rows
    split <;> rfl

theorem markSelectedLast_items (rows : List RowEl) (itemId : String) :
    (markSelectedLast rows itemId).map (fun r => r.item) = rows.map (fun r => r.item) := by
  induction rows with
  | nil => rfl
  | cons r rs ih =>
    unfold markSelectedLast
    by_cases h1 : rs.any (fun x => x.item.id = itemId)
    · simp [h1, ih]
    · by_cases h2 : r.item.id = itemId <;> simp [h1, h2, ih]

theorem selectListItem_items (st : PackListState) (itemId : String) :
    (selectListItem st itemId).rows.map (fun r => r.item) = st.rows.map (fun r => r.item) := by
  unfold selectListItem
  rw [markSelectedLast_items]
  exact map_item_of_map (fun r => { r with selected := false }) (fun r => rfl) st.rows

theorem renderPackList_items (st : PackListState) (listData : List ListItem) :
    (renderPackList st listData).rows.map (fun r => r.item) =
      sortListItems listData st.currentSortField st.sortDirection := by
  unfold renderPackList
  rw [filterListItems_items]
  rw [List.map_map]
  exact List.map_id' _

/-- C1: after a successful load-order move (up/down button or drag-drop),
    the client fully replaces its local list with the backend-returned
    `ListItem` array and re-renders from it: the rendered rows are exactly
    the backend's items (re-ordered for display by the active sort only), so
    their `order` cells are exactly the backend's `order` values; no order
    value is computed or adjusted client-side. -/
theorem claim_C1_authoritative_replace :
    ∀ (st : PackListState) (modId src tgt : String) (dir : LoadOrderDirectionMove)
      (result : List ListItem),
      ((movePackInLoadOrderInDirection st modId dir (Except.ok result)).rows.map
          (fun r => r.item) =
        sortListItems result st.currentSortField st.sortDirection ∧
      List.Perm ((movePackInLoadOrderInDirection st modId dir (Except.ok result)).rows.map
          (fun r => r.item.order))
        (result.map (fun it => it.order))) ∧
      ((movePackInLoadOrder st src tgt (Except.ok result)).rows.map (fun r => r.item) =
        sortListItems result st.currentSortField st.sortDirection ∧
      List.Perm ((movePackInLoadOrder st src tgt (Except.ok result)).rows.map
          (fun r => r.item.order))
        (result.map (fun it => it.order))) := by
  intro st modId src tgt dir result
  have hperm : List.Perm (sortListItems result st.currentSortField st.sortDirection) result :=
    List.perm_insertionSort _ result
  have h1 : (movePackInLoadOrderInDirection st modId dir (Except.ok result)).rows =
      (selectListItem (renderPackList st result) modId).rows := rfl
  have h2 : (movePackInLoadOrder st src tgt (Except.ok result)).rows =
      (selectListItem (renderPackList st result) src).rows := rfl
  have hitems : ∀ sel : String,
      (selectListItem (renderPackList st result) sel).rows.map (fun r => r.item) =
        sortListItems result st.currentSortField st.sortDirection := by
    intro sel
    rw [selectListItem_items]
    exact renderPackList_items st result
  have horder : ∀ sel : String,
      List.Perm ((selectListItem (renderPackList st result) sel).rows.map
          (fun r => r.item.order))
        (result.map (fun it => it.order)) := by
    intro sel
    have : (selectListItem (renderPackList st result) sel).rows.map (fun r => r.item.order) =
        ((selectListItem (renderPackList st result) sel).rows.map (fun r => r.item)).map
          (fun it => it.order) := by
      rw [List.map_map]
      rfl
    rw [this, hitems sel]
    exact hperm.map _
  exact ⟨⟨h1 ▸ hitems modId, h1 ▸ horder modId⟩, ⟨h2 ▸ hitems src, h2 ▸ horder src⟩⟩

/-! ### Selection-set bookkeeping lemmas -/

theorem toggle_selections (st : TreeState) (cid : String) (f : Option Bool) :
    (toggleCategoryExpansion st cid f).selectedItems = st.selectedItems ∧
    (toggleCategoryExpansion st cid f).selectedCategories = st.selectedCategories := by
  unfold toggleCategoryExpansion
  cases getCatNode st cid <;> exact ⟨rfl, rfl⟩

theorem shiftSelectStep_selectedCategories (items : List ItemEl) (s : TreeState) (i : Int) :
    (shiftSelectStep items s i).selectedCategories = s.selectedCategories := by
  unfold shiftSelectStep
  split
  · split <;> rfl
  · rfl

theorem shiftSelect_foldl_selectedCategories (items : List ItemEl) :
    ∀ (l : List Int) (s : TreeState),
      ((l.foldl (shiftSelectStep items) s)).selectedCategories = s.selectedCategories := by
  intro l
  induction l with
  | nil => intro s; rfl
  | cons i l ih =>
    intro s
    rw [List.foldl_cons, ih, shiftSelectStep_selectedCategories]

theorem shiftCatSelectStep_selectedItems (cats : List CatNode) (s : TreeState) (i : Int) :
    (shiftCatSelectStep cats s i).selectedItems = s.selectedItems := by
  unfold shiftCatSelectStep
  split
  · split <;> rfl
  · rfl

theorem shiftCatSelect_foldl_selectedItems (cats : List CatNode) :
    ∀ (l : List Int) (s : TreeState),
      ((l.foldl (shiftCatSelectStep cats) s)).selectedItems = s.selectedItems := by
  intro l
  induction l with
  | nil => intro s; rfl
  | cons i l ih =>
    intro s
    rw [List.foldl_cons, ih, shiftCatSelectStep_selectedItems]

theorem selectTreeItemCore_selectedCategories (st : TreeState) (itemId : String) (c s : Bool) :
    (selectTreeItemCore st itemId c s).selectedCategories = st.selectedCategories := by
  unfold selectTreeItemCore
  split
  · exact shiftSelect_foldl_selectedCategories _ _ _
  · split <;> [skip; rfl]
    split <;> rfl

theorem selectTreeItemExpand_selections (st : TreeState) (itemId : String) :
    (selectTreeItemExpand st itemId).selectedItems = st.selectedItems ∧
    (selectTreeItemExpand st itemId).selectedCategories = st.selectedCategories := by
  unfold selectTreeItemExpand
  split
  · split
    · split
      · exact ⟨(toggle_selections _ _ _).1, (toggle_selections _ _ _).2⟩
      · exact ⟨rfl, rfl⟩
    · exact ⟨rfl, rfl⟩
  · exact ⟨rfl, rfl⟩

theorem selectTreeItemFinish_selections (st : TreeState) (itemId : String) :
    (selectTreeItemFinish st itemId).selectedItems = st.selectedItems ∧
    (selectTreeItemFinish st itemId).selectedCategories = st.selectedCategories := by
  unfold selectTreeItemFinish
  split <;> exact ⟨rfl, rfl⟩

theorem selectTreeItemEpilogue_selectedCategories (st : TreeState) (itemId : String) :
    (selectTreeItemEpilogue st itemId).selectedCategories = st.selectedCategories := by
  unfold selectTreeItemEpilogue
  rw [(selectTreeItemFinish_selections _ _).2, (selectTreeItemExpand_selections _ _).2]

theorem selectTreeItemEpilogue_selectedItems (st : TreeState) (itemId : String) :
    (selectTreeItemEpilogue st itemId).selectedItems = st.selectedItems := by
  unfold selectTreeItemEpilogue
  rw [(selectTreeItemFinish_selections _ _).1, (selectTreeItemExpand_selections _ _).1]

theorem selectCategoryFinish_selectedItems (st : TreeState) (categoryId : String) :
    (selectCategoryFinish st categoryId).selectedItems = st.selectedItems := by
  unfold selectCategoryFinish
  split <;> rfl

theorem selectCategoryCore_selectedItems (st : TreeState) (categoryId : String) (c s : Bool) :
    (selectCategoryCore st categoryId c s).selectedItems = st.selectedItems := by
  unfold selectCategoryCore
  split
  · exact shiftCatSelect_foldl_selectedItems _ _ _
  · split <;> [skip; rfl]
    split <;> rfl

theorem selectTreeItem_plain_selectedCategories (st : TreeState) (itemId : String) :
    (selectTreeItem st itemId false false).selectedCategories = [] := by
  unfold selectTreeItem selectTreeItemAfterClear
  rw [if_pos (show (!false && !false) = true from rfl)]
  cases h : getItemEl (clearSelections st) itemId with
  | none => rfl
  | some it =>
    rw [selectTreeItemEpilogue_selectedCategories, selectTreeItemCore_selectedCategories]
    rfl

theorem selectCategory_plain_selectedItems (st : TreeState) (categoryId : String) :
    (selectCategory st categoryId false false).selectedItems = [] := by
  unfold selectCategory selectCategoryAfterClear
  rw [if_pos (show (!false && !false) = true from rfl)]
  cases h : getCatNode (clearSelections st) categoryId with
  | none => rfl
  | some cn =>
    rw [selectCategoryFinish_selectedItems, selectCategoryCore_selectedItems]
    rfl

/-- C3's counterexample: selecting the category `Cat` with a plain click,
    then ctrl-clicking the mod `M`, leaves both the category and the mod
    selected at once. -/
theorem claim_C3_counterexample :
    ("Cat" ∈ (selectTreeItem
        (selectCategory
          { dom := [ { el := { id := "Cat", name := "Cat" },
                       items := [ { id := "M", categoryId := "Cat" } ] } ],
            categories := [ { id := "Cat", name := "Cat",
                              children := [ { id := "M", name := "M" } ] } ] }
          "Cat" false false)
        "M" true false).selectedCategories) ∧
    ("M" ∈ (selectTreeItem
        (selectCategory
          { dom := [ { el := { id := "Cat", name := "Cat" },
                       items := [ { id := "M", categoryId := "Cat" } ] } ],
            categories := [ { id := "Cat", name := "Cat",
                              children := [ { id := "M", name := "M" } ] } ] }
          "Cat" false false)
        "M" true false).selectedItems) := by
  decide

/-- C3 amended: the Selection Tracker enforces mutual exclusivity only for
    plain (modifier-free) selections — a plain mod click always clears the
    category selection and a plain category click always clears the mod
    selection; ctrl/shift selections leave the other set intact, so both
    kinds can be selected simultaneously. -/
theorem claim_C3_plain_selection_exclusive :
    ∀ (st : TreeState) (id : String),
      (selectTreeItem st id false false).selectedCategories = [] ∧
      (selectCategory st id false false).selectedItems = [] := by
  intro st id
  exact ⟨selectTreeItem_plain_selectedCategories st id,
    selectCategory_plain_selectedItems st id⟩

/-- C9: when the category id is not a key of the category element map (the
    children container lives in the same node in this model), the toggle is
    a silent no-op: the whole state — expansion classes, live settings and
    the persisted copy, including the `tree_open_state` entry — is returned
    unchanged. -/
theorem claim_C9_toggle_lookup_noop :
    ∀ (st : TreeState) (categoryId : String) (forceState : Option Bool),
      getCatNode st categoryId = none →
      toggleCategoryExpansion st categoryId forceState = st := by
  intro st categoryId forceState h
  unfold toggleCategoryExpansion
  rw [h]

/-- Witness for C9 at a concrete state with an unknown category id. -/
theorem claim_C9_toggle_lookup_noop_witness :
    toggleCategoryExpansion { dom := [], categories := [] } "Ghost" (some true) =
      { dom := [], categories := [] } :=
  claim_C9_toggle_lookup_noop { dom := [], categories := [] } "Ghost" (some true) (by decide)

/-- C10: a rejected `reorder_categories` backend call leaves the cached
    categories array and the category element ordering (indeed the whole
    state) unchanged, surfacing the failure only through the status
    message. -/
theorem claim_C10_reorder_failure_atomic :
    ∀ (st : TreeState) (sourceId targetId e : String),
      handleCategoryReorder st sourceId targetId (Except.error e) =
        { st with statusMessage := "Error reordering categories: " ++ e } := by
  intro st sourceId targetId e
  rfl

/-! ### C4: category removal loses mods when the id needs CSS escaping -/

/-- A tree whose middle category is named `a!` — a name `CSS.escape` changes
    to `a\!` — holding one mod, rendered as the source renders it (selection
    and `data-` attributes carry the escaped id). -/
def removeCategoryBugState : TreeState :=
  { dom := [ { el := { id := "Unassigned", name := "Unassigned" }, items := [] },
             { el := { id := "a\\!", name := "a!" },
               items := [ { id := "m", categoryId := "a\\!" } ] },
             { el := { id := "Graphics", name := "Graphics" },
               items := [ { id := "g1", categoryId := "Graphics" } ] } ],
    categories := [ { id := "Unassigned", name := "Unassigned", children := [] },
                    { id := "a!", name := "a!",
                      children := [ { id := "m", name := "m" } ] },
                    { id := "Graphics", name := "Graphics",
                      children := [ { id := "g1", name := "g1" } ] } ],
    selectedCategories := ["a\\!"] }

/-- C4 evaluated at the failing input: removing the selected category `a!`
    (its selection id being the escaped `a\!`) leaves the default category's
    children empty — the mod `m` is lost, not reparented — keeps `a!` in the
    cached category collection, and `splice(-1, 1)` deletes the unrelated
    last category `Graphics` instead. -/
theorem claim_C4_escaped_id_bug_eval :
    ((removeCategory removeCategoryBugState).categories.map TreeCategory.id =
      ["Unassigned", "a!"]) ∧
    (((removeCategory removeCategoryBugState).categories.find?
        (fun c => c.id = "Unassigned")).map TreeCategory.children =
      some ([] : List TreeItem)) := by
  decide

/-! ### C2: shift-range selection over the rendered row snapshot -/

/-- The `data-id`s of all rendered mod rows, in document order. -/
def domIds (st : TreeState) : List String := (domItems st).map ItemEl.id

theorem domIds_flatten (st : TreeState) :
    domIds st = (st.dom.map (fun cn => cn.items.map ItemEl.id)).flatten := by
  simp [domIds, domItems, List.map_flatten, List.map_map]
  rfl

theorem itemsIds_map_of (dom : List CatNode) (g : CatNode → CatNode)
    (hg : ∀ cn, (g cn).items.map ItemEl.id = cn.items.map ItemEl.id) :
    (dom.map g).map (fun cn => cn.items.map ItemEl.id) =
      dom.map (fun cn => cn.items.map ItemEl.id) := by
  rw [List.map_map]
  exact List.map_congr_left (fun cn _ => hg cn)

theorem itemIds_map_of (items : List ItemEl) (f : ItemEl → ItemEl)
    (hf : ∀ it, (f it).id = it.id) :
    (items.map f).map ItemEl.id = items.map ItemEl.id := by
  rw [List.map_map]
  exact List.map_congr_left (fun it _ => hf it)

theorem domIds_mk_map (st : TreeState) (dom' : List CatNode) (cats : List TreeCategory)
    (si sc : List String) (f : String) (d : SortDir) (sets : SettingsState) (msg : String)
    (h : (dom'.map (fun cn => cn.items.map ItemEl.id)) =
      st.dom.map (fun cn => cn.items.map ItemEl.id)) :
    domIds { dom := dom', categories := cats, selectedItems := si, selectedCategories := sc,
             currentSortField := f, sortDirection := d, settings := sets,
             statusMessage := msg } = domIds st := by
  rw [domIds_flatten, domIds_flatten, h]

theorem domIds_clearSelections (st : TreeState) :
    domIds (clearSelections st) = domIds st := by
  unfold clearSelections
  refine domIds_mk_map st _ _ _ _ _ _ _ _ ?_
  refine itemsIds_map_of _ _ (fun cn => ?_)
  exact itemIds_map_of _ _ (fun it => rfl)

theorem itemsIds_updItem (dom : List CatNode) (id : String) (f : ItemEl → ItemEl)
    (hf : ∀ it, (f it).id = it.id) :
    (updItem dom id f).map (fun cn => cn.items.map ItemEl.id) =
      dom.map (fun cn => cn.items.map ItemEl.id) := by
  unfold updItem
  refine itemsIds_map_of _ _ (fun cn => ?_)
  refine itemIds_map_of _ _ (fun it => ?_)
  split
  · exact hf it
  · rfl

theorem itemsIds_updCat (dom : List CatNode) (id : String) (f : CatEl → CatEl) :
    (updCat dom id f).map (fun cn => cn.items.map ItemEl.id) =
      dom.map (fun cn => cn.items.map ItemEl.id) := by
  unfold updCat
  refine itemsIds_map_of _ _ (fun cn => ?_)
  split <;> rfl

theorem domIds_toggle (st : TreeState) (cid : String) (f : Option Bool) :
    domIds (toggleCategoryExpansion st cid f) = domIds st := by
  unfold toggleCategoryExpansion
  cases getCatNode st cid with
  | none => rfl
  | some cn =>
    refine domIds_mk_map st _ _ _ _ _ _ _ _ ?_
    exact itemsIds_updCat st.dom cid _

theorem domIds_shiftSelectStep (items : List ItemEl) (s : TreeState) (i : Int) :
    domIds (shiftSelectStep items s i) = domIds s := by
  unfold shiftSelectStep
  split
  · rename_i it heq
    by_cases hid : it.id ≠ ""
    · rw [if_pos hid]
      exact domIds_mk_map s _ _ _ _ _ _ _ _ (itemsIds_updItem s.dom it.id _ (fun x => rfl))
    · rw [if_neg hid]
  · rfl

theorem domIds_shiftSelect_foldl (items : List ItemEl) :
    ∀ (l : List Int) (s : TreeState),
      domIds (l.foldl (shiftSelectStep items) s) = domIds s := by
  intro l
  induction l with
  | nil => intro s; rfl
  | cons i l ih =>
    intro s
    rw [List.foldl_cons, ih, domIds_shiftSelectStep]

theorem domIds_selectTreeItemCore (st : TreeState) (itemId : String) (c s : Bool) :
    domIds (selectTreeItemCore st itemId c s) = domIds st := by
  unfold selectTreeItemCore
  split
  · exact domIds_shiftSelect_foldl _ _ _
  · split
    · split <;>
      · refine domIds_mk_map st _ _ _ _ _ _ _ _ ?_
        exact itemsIds_updItem st.dom itemId _ (fun x => rfl)
    · refine domIds_mk_map st _ _ _ _ _ _ _ _ ?_
      exact itemsIds_updItem st.dom itemId _ (fun x => rfl)

theorem domIds_selectTreeItemExpand (st : TreeState) (itemId : String) :
    domIds (selectTreeItemExpand st itemId) = domIds st := by
  unfold selectTreeItemExpand
  split
  · split
    · split
      · exact domIds_toggle _ _ _
      · rfl
    · rfl
  · rfl

theorem domIds_selectTreeItemFinish (st : TreeState) (itemId : String) :
    domIds (selectTreeItemFinish st itemId) = domIds st := by
  unfold selectTreeItemFinish
  split <;> rfl

theorem domIds_selectTreeItem (st : TreeState) (itemId : String) (c s : Bool) :
    domIds (selectTreeItem st itemId c s) = domIds st := by
  unfold selectTreeItem selectTreeItemAfterClear selectTreeItemEpilogue
  have hbase : ∀ st' : TreeState, domIds st' = domIds st →
      domIds (match getItemEl st' itemId with
        | none => st'
        | some _ =>
          selectTreeItemFinish
            (selectTreeItemExpand (selectTreeItemCore st' itemId c s) itemId) itemId) =
        domIds st := by
    intro st' h
    cases getItemEl st' itemId with
    | none => exact h
    | some it =>
      rw [domIds_selectTreeItemFinish, domIds_selectTreeItemExpand,
        domIds_selectTreeItemCore, h]
  by_cases hcs : (!c && !s) = true
  · rw [if_pos hcs]
    exact hbase _ (domIds_clearSelections st)
  · rw [if_neg hcs]
    exact hbase _ rfl

theorem setAdd_mem (l : List String) (k x : String) :
    x ∈ setAdd l k ↔ x ∈ l ∨ x = k := by
  unfold setAdd
  by_cases h : k ∈ l
  · rw [if_pos h]
    constructor
    · exact Or.inl
    · rintro (hx | rfl)
      · exact hx
      · exact h
  · rw [if_neg h]
    simp

theorem setAdd_foldl_mem :
    ∀ (ks acc : List String) (x : String),
      x ∈ ks.foldl setAdd acc ↔ x ∈ acc ∨ x ∈ ks := by
  intro ks
  induction ks with
  | nil => simp
  | cons k ks ih =>
    intro acc x
    rw [List.foldl_cons, ih, setAdd_mem]
    simp [or_assoc]

/-- The ids the shift-range loop adds while walking `l` over the snapshot
    `items`. -/
def shiftIdsOf (items : List ItemEl) (l : List Int) : List String :=
  l.filterMap (fun i => (jsIdx items i).bind (fun it => if it.id ≠ "" then some it.id else none))

theorem shiftSelect_foldl_selectedItems (items : List ItemEl) :
    ∀ (l : List Int) (s : TreeState),
      (l.foldl (shiftSelectStep items) s).selectedItems =
        (shiftIdsOf items l).foldl setAdd s.selectedItems := by
  intro l
  induction l with
  | nil => intro s; rfl
  | cons i l ih =>
    intro s
    rw [List.foldl_cons, ih]
    unfold shiftIdsOf
    rw [List.filterMap_cons]
    cases h : jsIdx items i with
    | none =>
      have hstep : (shiftSelectStep items s i).selectedItems = s.selectedItems := by
        unfold shiftSelectStep
        simp [h]
      simp [h, hstep, shiftIdsOf]
    | some it =>
      by_cases hid : it.id ≠ ""
      · have hstep : (shiftSelectStep items s i).selectedItems = setAdd s.selectedItems it.id := by
          unfold shiftSelectStep
          simp [h, hid]
        simp [h, hid, hstep, shiftIdsOf]
      · have hid' : it.id = "" := not_not.mp hid
        have hstep : (shiftSelectStep items s i).selectedItems = s.selectedItems := by
          unfold shiftSelectStep
          simp [h, hid']
        simp [h, hid', hstep, shiftIdsOf]

theorem mem_intRange (a b x : Int) : x ∈ intRange a b ↔ a ≤ x ∧ x ≤ b := by
  unfold intRange
  simp only [List.mem_map, List.mem_range]
  constructor
  · rintro ⟨k, hk, rfl⟩
    omega
  · rintro ⟨h1, h2⟩
    refine ⟨(x - a).toNat, by omega, by omega⟩

theorem getItemEl_isSome (st : TreeState) (id : String) :
    (getItemEl st id).isSome ↔ id ∈ domIds st := by
  unfold getItemEl domIds
  rw [List.find?_isSome]
  simp [List.mem_map, eq_comm]

theorem jsFindIdx_id_congr (st1 st2 : TreeState) (h : domIds st1 = domIds st2)
    (cId : String) :
    jsFindIdx (fun it => it.id = cId) (domItems st1) =
      jsFindIdx (fun it => it.id = cId) (domItems st2) := by
  unfold jsFindIdx
  have h2 : List.findIdx? (fun s => decide (s = cId)) (List.map ItemEl.id (domItems st1)) =
      List.findIdx? (fun s => decide (s = cId)) (List.map ItemEl.id (domItems st2)) :=
    congrArg (List.findIdx? (fun s => decide (s = cId))) h
  rw [List.findIdx?_map, List.findIdx?_map] at h2
  have h3 : ((fun s => decide (s = cId)) ∘ ItemEl.id) = (fun it : ItemEl => decide (it.id = cId)) := by
    funext it
    rfl
  rw [h3] at h2
  rw [h2]

theorem selectTreeItem_plain_result (st : TreeState) (itemId : String)
    (h : itemId ∈ domIds st) :
    (selectTreeItem st itemId false false).selectedItems = [itemId] := by
  unfold selectTreeItem selectTreeItemAfterClear
  rw [if_pos (show (!false && !false) = true from rfl)]
  have hs : (getItemEl (clearSelections st) itemId).isSome := by
    rw [getItemEl_isSome, domIds_clearSelections]
    exact h
  cases hE : getItemEl (clearSelections st) itemId with
  | none =>
    rw [hE] at hs
    exact absurd hs (by simp)
  | some it =>
    rw [selectTreeItemEpilogue_selectedItems]
    rfl

/-- C2's counterexample: three rows `A`, `H`, `B` are rendered in that
    order, `H` carrying the filter `hidden` class. Plain-clicking `A` then
    shift-clicking `B` selects the hidden row `H` as well, although it is
    not part of the visible range. -/
theorem claim_C2_counterexample :
    ("H" ∈ (selectTreeItem
        (selectTreeItem
          { dom := [ { el := { id := "Cat", name := "Cat" },
                       items := [ { id := "A", categoryId := "Cat" },
                                  { id := "H", categoryId := "Cat", hidden := true },
                                  { id := "B", categoryId := "Cat" } ] } ],
            categories := [] }
          "A" false false)
        "B" false true).selectedItems) ∧
    ((getItemEl
        { dom := [ { el := { id := "Cat", name := "Cat" },
                     items := [ { id := "A", categoryId := "Cat" },
                                { id := "H", categoryId := "Cat", hidden := true },
                                { id := "B", categoryId := "Cat" } ] } ],
          categories := [] }
        "H").map ItemEl.hidden = some true) := by
  decide

/-- C2 amended: plain-clicking `A` and then shift-clicking `B` selects
    exactly the contiguous range of the rendered `.tree-item` snapshot (in
    document order: post-sort, but *including* rows hidden by the filter)
    between `A`'s and `B`'s positions, inclusive. -/
theorem claim_C2_shift_range_selection :
    ∀ (st : TreeState) (aId bId : String) (i j : Nat),
      (∀ it ∈ domItems st, it.id ≠ "") →
      (domItems st).findIdx? (fun it => it.id = aId) = some i →
      (domItems st).findIdx? (fun it => it.id = bId) = some j →
      ∀ x : String,
        x ∈ (selectTreeItem (selectTreeItem st aId false false) bId false true).selectedItems ↔
          ∃ k : Nat, min i j ≤ k ∧ k ≤ max i j ∧ (domIds st)[k]? = some x := by
  intro st aId bId i j hne ha hb x
  obtain ⟨hiLen, hpa, -⟩ := List.findIdx?_eq_some_iff_getElem.mp ha
  obtain ⟨hjLen, hpb, -⟩ := List.findIdx?_eq_some_iff_getElem.mp hb
  have hpa' : ((domItems st)[i]).id = aId := by simpa using hpa
  have hpb' : ((domItems st)[j]).id = bId := by simpa using hpb
  have haMem : aId ∈ domIds st := by
    rw [← hpa']
    exact List.mem_map_of_mem _ (List.getElem_mem hiLen)
  have hbMem : bId ∈ domIds st := by
    rw [← hpb']
    exact List.mem_map_of_mem _ (List.getElem_mem hjLen)
  have hidsA : (domIds st)[i]? = some aId := by
    have hm : (domIds st)[i]? = ((domItems st)[i]?).map ItemEl.id := by
      simp [domIds, List.getElem?_map]
    rw [hm, List.getElem?_eq_getElem hiLen]
    simp [hpa']
  set st1 := selectTreeItem st aId false false with hst1
  have h1sel : st1.selectedItems = [aId] := selectTreeItem_plain_result st aId haMem
  have h1ids : domIds st1 = domIds st := domIds_selectTreeItem st aId false false
  have hbMem1 : (getItemEl st1 bId).isSome := by
    rw [getItemEl_isSome, h1ids]
    exact hbMem
  have hlen1 : (domItems st1).length = (domItems st).length := by
    have hh := congrArg List.length h1ids
    simpa [domIds] using hh
  have hnth : ∀ n : ℕ, ((domItems st1)[n]?).map ItemEl.id = (domIds st)[n]? := by
    intro n
    have hh := congrArg (fun l => l[n]?) h1ids
    simpa [domIds, List.getElem?_map] using hh
  have hne1 : ∀ it ∈ domItems st1, it.id ≠ "" := by
    intro it hmem
    have hm : it.id ∈ domIds st1 := List.mem_map_of_mem _ hmem
    rw [h1ids] at hm
    obtain ⟨it0, hit0, hid0⟩ := List.mem_map.mp hm
    rw [← hid0]
    exact hne it0 hit0
  have hfindA : jsFindIdx (fun it => it.id = aId) (domItems st1) = (i : Int) := by
    rw [jsFindIdx_id_congr st1 st h1ids]
    unfold jsFindIdx
    rw [ha]
  have hfindB : jsFindIdx (fun it => it.id = bId) (domItems st1) = (j : Int) := by
    rw [jsFindIdx_id_congr st1 st h1ids]
    unfold jsFindIdx
    rw [hb]
  -- reduce the second click
  show x ∈ (selectTreeItem st1 bId false true).selectedItems ↔ _
  unfold selectTreeItem selectTreeItemAfterClear
  rw [if_neg (show ¬((!false && !true) = true) by decide)]
  cases hE : getItemEl st1 bId with
  | none =>
    rw [hE] at hbMem1
    exact absurd hbMem1 (by simp)
  | some itB =>
    rw [selectTreeItemEpilogue_selectedItems]
    unfold selectTreeItemCore
    rw [if_pos (show (true && decide (0 < st1.selectedItems.length)) = true by
      rw [h1sel]
      rfl)]
    rw [h1sel]
    rw [show ([aId].getLastD "") = aId from rfl]
    rw [hfindA, hfindB]
    rw [shiftSelect_foldl_selectedItems, h1sel, setAdd_foldl_mem]
    have hmem_shift : ∀ y : String,
        y ∈ shiftIdsOf (domItems st1) (intRange (min (i : Int) (j : Int)) (max (i : Int) (j : Int))) ↔
          ∃ k : ℕ, min i j ≤ k ∧ k ≤ max i j ∧ (domIds st)[k]? = some y := by
      intro y
      unfold shiftIdsOf
      rw [List.mem_filterMap]
      constructor
      · rintro ⟨kI, hkI, hsome⟩
        rw [mem_intRange] at hkI
        have hk0 : 0 ≤ kI := by omega
        unfold jsIdx at hsome
        rw [if_pos hk0] at hsome
        have hklen : kI.toNat < (domItems st1).length := by
          rw [hlen1]
          omega
        rw [List.get?_eq_getElem?, List.getElem?_eq_getElem hklen] at hsome
        have hidy : ((domItems st1)[kI.toNat]).id = y := by
          by_cases hz : ((domItems st1)[kI.toNat]).id ≠ ""
          · simpa [hz] using hsome
          · exact absurd (hne1 _ (List.getElem_mem hklen)) (by simpa using hz)
        refine ⟨kI.toNat, by omega, by omega, ?_⟩
        rw [← hnth kI.toNat, List.getElem?_eq_getElem hklen]
        simp [hidy]
      · rintro ⟨k, h1, h2, h3⟩
        have hklen : k < (domItems st1).length := by
          rw [hlen1]
          omega
        have hidk : ((domItems st1)[k]).id = y := by
          have hh := hnth k
          rw [List.getElem?_eq_getElem hklen, h3] at hh
          simpa using hh
        refine ⟨(k : Int), ?_, ?_⟩
        · rw [mem_intRange]
          constructor <;> omega
        · unfold jsIdx
          rw [if_pos (Int.ofNat_nonneg k)]
          rw [List.get?_eq_getElem?]
          rw [show (k : Int).toNat = k from rfl, List.getElem?_eq_getElem hklen]
          have hnz : ((domItems st1)[k]).id ≠ "" :=
            hne1 _ (List.getElem_mem hklen)
          rw [hidk] at hnz
          simp [hnz, hidk]
    rw [hmem_shift]
    constructor
    · rintro (hx | hx)
      · have hxa : x = aId := by simpa using hx
        exact ⟨i, min_le_left i j, le_max_left i j, by rw [hxa]; exact hidsA⟩
      · exact hx
    · intro hx
      exact Or.inr hx

/-- Witness for the amended C2 at the concrete three-row tree: the range
    0..2 selected by plain-clicking `A` then shift-clicking `B` contains the
    middle row `H`. -/
theorem claim_C2_shift_range_selection_witness :
    "H" ∈ (selectTreeItem
        (selectTreeItem
          { dom := [ { el := { id := "Cat", name := "Cat" },
                       items := [ { id := "A", categoryId := "Cat" },
                                  { id := "H", categoryId := "Cat", hidden := true },
                                  { id := "B", categoryId := "Cat" } ] } ],
            categories := [] }
          "A" false false)
        "B" false true).selectedItems :=
  (claim_C2_shift_range_selection
      { dom := [ { el := { id := "Cat", name := "Cat" },
                   items := [ { id := "A", categoryId := "Cat" },
                              { id := "H", categoryId := "Cat", hidden := true },
                              { id := "B", categoryId := "Cat" } ] } ],
        categories := [] }
      "A" "B" 0 2 (by decide) (by decide) (by decide) "H").mpr
    ⟨1, by decide, by decide, by decide⟩

/-! ### C6: tree filtering -/

/-- Per-node effect of the matching-row pass, for the matched rows `M`. -/
def descMatchPass (M : List ItemEl) (cn : CatNode) : CatNode :=
  { cn with
    el := if M.any (fun m => cn.el.id = m.categoryId) then
        { cn.el with itemsHidden := false }
      else cn.el,
    items := cn.items.map (fun it =>
      if M.any (fun m => it.id = m.id) then { it with hidden := false } else it) }

/-- Per-node effect of the `categoriesToShow` pass, for the ids `C`. -/
def descCatsPass (C : List String) (cn : CatNode) : CatNode :=
  if C.any (fun cid => cn.el.id = cid) then
    { cn with el := { cn.el with hidden := false, expanded := true, itemsExpanded := true } }
  else cn

/-- Per-node effect of the category-name pass, for the `(id, name)` pairs
    `P` and normalized filter `n`. -/
def descNamePass (P : List (String × String)) (n : String) (cn : CatNode) : CatNode :=
  { cn with
    el := if P.any (fun p => jsIncludes p.2 n && cn.el.id = p.1) then
        { cn.el with hidden := false, itemsHidden := false,
                     expanded := true, itemsExpanded := true }
      else cn.el,
    items := cn.items.map (fun it =>
      if P.any (fun p => jsIncludes p.2 n && it.categoryId = p.1) then
        { it with hidden := false }
      else it) }

theorem showMatchingItemStep_dom (s : TreeState) (m : ItemEl) :
    (showMatchingItemStep s m).dom =
      s.dom.map (fun cn =>
        { cn with
          el := if cn.el.id = m.categoryId then { cn.el with itemsHidden := false } else cn.el,
          items := cn.items.map (fun it =>
            if it.id = m.id then { it with hidden := false } else it) }) := by
  unfold showMatchingItemStep updItem updCat
  rw [List.map_map]
  refine List.map_congr_left (fun cn _ => ?_)
  simp only [Function.comp_apply]
  by_cases h : cn.el.id = m.categoryId
  · rw [if_pos h, if_pos h]
  · rw [if_neg h, if_neg h]

theorem showMatchingItemStep_foldl_dom :
    ∀ (M : List ItemEl) (s : TreeState),
      (M.foldl showMatchingItemStep s).dom = s.dom.map (descMatchPass M) := by
  intro M
  induction M with
  | nil =>
    intro s
    rw [List.foldl_nil]
    have h : s.dom.map (descMatchPass []) = s.dom.map id :=
      List.map_congr_left (fun cn _ => by unfold descMatchPass; simp)
    rw [h, List.map_id]
  | cons m M ih =>
    intro s
    rw [List.foldl_cons, ih, showMatchingItemStep_dom, List.map_map]
    refine List.map_congr_left (fun cn _ => ?_)
    simp only [Function.comp_apply]
    unfold descMatchPass
    congr 1
    · by_cases h1 : cn.el.id = m.categoryId <;>
        by_cases h2 : M.any (fun m' => cn.el.id = m'.categoryId) = true <;>
        simp [h1, h2]
    · rw [List.map_map]
      refine List.map_congr_left (fun it _ => ?_)
      simp only [Function.comp_apply]
      by_cases h3 : it.id = m.id <;>
        by_cases h4 : M.any (fun m' => it.id = m'.id) = true <;>
        simp [h3, h4]

theorem getCatNode_updCat (s : TreeState) (d : List CatNode) (cid cid' : String)
    (f : CatEl → CatEl) (hf : ∀ el, (f el).id = el.id) :
    getCatNode { s with dom := updCat d cid f } cid' =
      (d.find? (fun cn => cn.el.id = cid')).map
        (fun cn => if cn.el.id = cid then { cn with el := f cn.el } else cn) := by
  unfold getCatNode updCat
  dsimp only
  rw [List.find?_map]
  have hp : ((fun cn : CatNode => decide (cn.el.id = cid')) ∘
      (fun cn => if cn.el.id = cid then { cn with el := f cn.el } else cn)) =
      (fun cn : CatNode => decide (cn.el.id = cid')) := by
    funext cn
    by_cases h : cn.el.id = cid
    · simp [h, hf]
    · simp [h]
  rw [hp]

theorem toggleCategoryExpansion_dom (st : TreeState) (cid : String) (b : Bool)
    (cn0 : CatNode) (hE : getCatNode st cid = some cn0) :
    (toggleCategoryExpansion st cid (some b)).dom =
      updCat st.dom cid (fun el => { el with expanded := b, itemsExpanded := b }) := by
  unfold toggleCategoryExpansion
  rw [hE]
  rfl

theorem expandLookupStep_dom (s : TreeState) (cid : String) (f : CatEl → CatEl)
    (hf : ∀ el, (f el).id = el.id) :
    ((match getCatNode s cid with
      | some _ =>
        toggleCategoryExpansion { s with dom := updCat s.dom cid f } cid (some true)
      | none => s) : TreeState).dom =
      s.dom.map (fun cn =>
        if cn.el.id = cid then
          { cn with el := { f cn.el with expanded := true, itemsExpanded := true } }
        else cn) := by
  cases hE : getCatNode s cid with
  | none =>
    have hnone : ∀ cn ∈ s.dom, ¬(cn.el.id = cid) := by
      intro cn hm
      have h2 := List.find?_eq_none.mp hE cn hm
      simpa using h2
    have hmap : s.dom.map (fun cn =>
        if cn.el.id = cid then
          { cn with el := { f cn.el with expanded := true, itemsExpanded := true } }
        else cn) = s.dom.map id :=
      List.map_congr_left (fun cn hm => by simp [hnone cn hm])
    rw [hmap, List.map_id]
  | some cn0 =>
    have hE2 : getCatNode { s with dom := updCat s.dom cid f } cid =
        some (if cn0.el.id = cid then { cn0 with el := f cn0.el } else cn0) := by
      rw [getCatNode_updCat s s.dom cid cid f hf]
      unfold getCatNode at hE
      rw [hE]
      rfl
    rw [toggleCategoryExpansion_dom _ _ _ _ hE2]
    dsimp only
    unfold updCat
    rw [List.map_map]
    refine List.map_congr_left (fun cn _ => ?_)
    simp only [Function.comp_apply]
    by_cases h : cn.el.id = cid
    · simp [h, hf]
    · simp [h]

theorem showCategoryStep_dom (s : TreeState) (cid : String) :
    (showCategoryStep s cid).dom =
      s.dom.map (fun cn =>
        if cn.el.id = cid then
          { cn with el := { cn.el with
            hidden := false,
            expanded := true,
            itemsExpanded := true } }
        else cn) :=
  expandLookupStep_dom s cid (fun el => { el with hidden := false }) (fun _ => rfl)

theorem showCategoryStep_foldl_dom :
    ∀ (C : List String) (s : TreeState),
      (C.foldl showCategoryStep s).dom = s.dom.map (descCatsPass C) := by
  intro C
  induction C with
  | nil =>
    intro s
    rw [List.foldl_nil]
    have h : s.dom.map (descCatsPass []) = s.dom.map id :=
      List.map_congr_left (fun cn _ => by unfold descCatsPass; simp)
    rw [h, List.map_id]
  | cons c C ih =>
    intro s
    rw [List.foldl_cons, ih, showCategoryStep_dom, List.map_map]
    refine List.map_congr_left (fun cn _ => ?_)
    simp only [Function.comp_apply]
    unfold descCatsPass
    by_cases h1 : cn.el.id = c
    · by_cases h2 : C.any (fun cid => cn.el.id = cid) = true
      · simp [h1, h1 ▸ h2]
      · simp [h1, h1 ▸ h2]
    · by_cases h2 : C.any (fun cid => cn.el.id = cid) = true
      · simp [h1, h2]
      · simp [h1, h2]

theorem showNameMatchExpand_dom (s : TreeState) (cid : String) :
    (showNameMatchExpand s cid).dom =
      s.dom.map (fun cn =>
        if cn.el.id = cid then
          { cn with el := { cn.el with
            itemsHidden := false,
            expanded := true,
            itemsExpanded := true } }
        else cn) :=
  expandLookupStep_dom s cid (fun el => { el with itemsHidden := false }) (fun _ => rfl)

/-- Per-node effect of one category-name pass for the pair `p`. -/
def namePassOne (n : String) (p : String × String) (cn : CatNode) : CatNode :=
  if jsIncludes p.2 n then
    { cn with
      el := if cn.el.id = p.1 then
          { cn.el with hidden := false, itemsHidden := false,
                       expanded := true, itemsExpanded := true }
        else cn.el,
      items := cn.items.map (fun it =>
        if it.categoryId = p.1 then { it with hidden := false } else it) }
  else cn

theorem showNameMatchStep_dom (n : String) (s : TreeState) (p : String × String) :
    (showNameMatchStep n s p).dom = s.dom.map (namePassOne n p) := by
  by_cases hm : jsIncludes p.2 n
  · unfold showNameMatchStep
    rw [if_pos hm]
    unfold showNameMatchUnhideItems
    dsimp only
    rw [showNameMatchExpand_dom]
    dsimp only
    unfold updCat
    rw [List.map_map, List.map_map]
    refine List.map_congr_left (fun cn _ => ?_)
    simp only [Function.comp_apply]
    unfold namePassOne
    rw [if_pos hm]
    by_cases h : cn.el.id = p.1
    · simp [h]
    · simp [h]
  · unfold showNameMatchStep
    rw [if_neg hm]
    have hmap : s.dom.map (namePassOne n p) = s.dom.map id :=
      List.map_congr_left (fun cn _ => by unfold namePassOne; rw [if_neg hm]; rfl)
    rw [hmap, List.map_id]

theorem showNameMatchStep_foldl_dom :
    ∀ (P : List (String × String)) (n : String) (s : TreeState),
      (P.foldl (showNameMatchStep n) s).dom = s.dom.map (descNamePass P n) := by
  intro P
  induction P with
  | nil =>
    intro n s
    rw [List.foldl_nil]
    have h : s.dom.map (descNamePass [] n) = s.dom.map id :=
      List.map_congr_left (fun cn _ => by unfold descNamePass; simp)
    rw [h, List.map_id]
  | cons p P ih =>
    intro n s
    rw [List.foldl_cons, ih, showNameMatchStep_dom, List.map_map]
    refine List.map_congr_left (fun cn _ => ?_)
    simp only [Function.comp_apply]
    unfold descNamePass namePassOne
    by_cases hm : jsIncludes p.2 n
    · simp only [if_pos hm]
      congr 1
      · by_cases h1 : cn.el.id = p.1
        · by_cases h2 : P.any (fun q => jsIncludes q.2 n && cn.el.id = q.1) = true
          · simp [hm, h1, h1 ▸ h2]
          · simp [hm, h1, h1 ▸ h2]
        · by_cases h2 : P.any (fun q => jsIncludes q.2 n && cn.el.id = q.1) = true
          · simp [hm, h1, h2]
          · simp [hm, h1, h2]
      · rw [List.map_map]
        refine List.map_congr_left (fun it hit => ?_)
        simp only [Function.comp_apply]
        by_cases h3 : it.categoryId = p.1
        · by_cases h4 : P.any (fun q => jsIncludes q.2 n && it.categoryId = q.1) = true
          · simp [hm, h3, h3 ▸ h4]
          · simp [hm, h3, h3 ▸ h4]
        · by_cases h4 : P.any (fun q => jsIncludes q.2 n && it.categoryId = q.1) = true
          · simp [hm, h3, h4]
          · simp [hm, h3, h4]
    · simp only [if_neg hm]
      have hb : jsIncludes p.2 n = false := by simpa using hm
      simp only [List.any_cons, hb, Bool.false_and, Bool.false_or]

/-- Accumulating `it.categoryId` over a JS `Set` collects exactly the
    category ids of the walked rows. -/
theorem setAddBy_foldl_mem :
    ∀ (ms : List ItemEl) (acc : List String) (x : String),
      x ∈ ms.foldl (fun acc it => setAdd acc it.categoryId) acc ↔
        x ∈ acc ∨ ∃ m ∈ ms, m.categoryId = x := by
  intro ms
  induction ms with
  | nil => simp
  | cons m ms ih =>
    intro acc x
    rw [List.foldl_cons, ih, setAdd_mem]
    constructor
    · rintro (h | ⟨m', hm', rfl⟩)
      · rcases h with h | h
        · exact Or.inl h
        · exact Or.inr ⟨m, List.mem_cons_self m ms, h.symm⟩
      · exact Or.inr ⟨m', List.mem_cons_of_mem m hm', rfl⟩
    · rintro (h | ⟨m', hm', rfl⟩)
      · exact Or.inl (Or.inl h)
      · rcases List.mem_cons.mp hm' with heq | hm'
        · exact Or.inl (Or.inr (by rw [heq]))
        · exact Or.inr ⟨m', hm', rfl⟩

/-- Claim-side description of one node after a non-empty filter, following
    the amended claim: a row is visible iff its id contains the filter text
    or its category's name does; a category (and its children container) is
    visible iff its name matches or one of its rows' ids does, in which
    case it is also force-expanded; otherwise expansion is untouched. -/
def filterSpecNode (n : String) (cn : CatNode) : CatNode :=
  { cn with
    el := { cn.el with
      hidden := !(jsIncludes cn.el.name n || cn.items.any (fun it => jsIncludes it.id n)),
      itemsHidden := !(jsIncludes cn.el.name n || cn.items.any (fun it => jsIncludes it.id n)),
      expanded := if jsIncludes cn.el.name n || cn.items.any (fun it => jsIncludes it.id n)
        then true else cn.el.expanded,
      itemsExpanded := if jsIncludes cn.el.name n || cn.items.any (fun it => jsIncludes it.id n)
        then true else cn.el.itemsExpanded },
    items := cn.items.map (fun it =>
      { it with hidden := !(jsIncludes it.id n || jsIncludes cn.el.name n) }) }

theorem filterPasses_eval (D : List CatNode) (n : String)
    (hcons : ∀ cn ∈ D, ∀ it ∈ cn.items, it.categoryId = cn.el.id)
    (hnd : (D.map (fun cn => cn.el.id)).Nodup)
    (M : List ItemEl) (C : List String) (P : List (String × String))
    (hM : M = (((D.map hideAllNode).map CatNode.items).flatten).filter
        (fun it => jsIncludes it.id n))
    (hC : C = M.foldl (fun acc it => setAdd acc it.categoryId) [])
    (hP : P = (((D.map hideAllNode).map (descMatchPass M)).map (descCatsPass C)).map
        (fun cn => (cn.el.id, cn.el.name))) :
    (((D.map hideAllNode).map (descMatchPass M)).map (descCatsPass C)).map
        (descNamePass P n) =
      D.map (filterSpecNode n) := by
  have hMeq : M = (((D.map CatNode.items).flatten).filter
      (fun it => jsIncludes it.id n)).map (fun it => { it with hidden := true }) := by
    rw [hM, List.map_map]
    have h1 : D.map (CatNode.items ∘ hideAllNode) =
        (D.map CatNode.items).map (List.map (fun it => { it with hidden := true })) := by
      rw [List.map_map]
      exact List.map_congr_left (fun cn _ => rfl)
    rw [h1, ← List.map_flatten, List.filter_map]
    congr 1
  have hB : ∀ cn ∈ D, ∀ it ∈ cn.items,
      (M.any (fun m => it.id = m.id)) = jsIncludes it.id n := by
    intro cn hcn it hit
    rw [Bool.eq_iff_iff, List.any_eq_true]
    constructor
    · rintro ⟨m, hmM, hid⟩
      rw [hMeq] at hmM
      rcases List.mem_map.mp hmM with ⟨it0, hit0, rfl⟩
      rcases List.mem_filter.mp hit0 with ⟨_, hpred⟩
      have hid' : it.id = it0.id := by simpa using hid
      rw [hid']
      exact hpred
    · intro hpred
      refine ⟨{ it with hidden := true }, ?_, by simp⟩
      rw [hMeq]
      refine List.mem_map.mpr ⟨it, List.mem_filter.mpr ⟨?_, hpred⟩, rfl⟩
      exact List.mem_flatten.mpr ⟨cn.items, List.mem_map.mpr ⟨cn, hcn, rfl⟩, hit⟩
  have hA : ∀ cn ∈ D,
      (M.any (fun m => cn.el.id = m.categoryId)) =
        cn.items.any (fun it => jsIncludes it.id n) := by
    intro cn hcn
    rw [Bool.eq_iff_iff, List.any_eq_true, List.any_eq_true]
    constructor
    · rintro ⟨m, hmM, hcid⟩
      rw [hMeq] at hmM
      rcases List.mem_map.mp hmM with ⟨it0, hit0, rfl⟩
      rcases List.mem_filter.mp hit0 with ⟨hmem0, hpred⟩
      rcases List.mem_flatten.mp hmem0 with ⟨l, hl, hit0l⟩
      rcases List.mem_map.mp hl with ⟨cn0, hcn0, rfl⟩
      have hcid' : cn.el.id = it0.categoryId := by simpa using hcid
      have hcat : it0.categoryId = cn0.el.id := hcons cn0 hcn0 it0 hit0l
      have heqn : cn0 = cn :=
        List.inj_on_of_nodup_map hnd hcn0 hcn (by rw [← hcat, ← hcid'])
      exact ⟨it0, heqn ▸ hit0l, hpred⟩
    · rintro ⟨it, hit, hpred⟩
      refine ⟨{ it with hidden := true }, ?_, ?_⟩
      · rw [hMeq]
        exact List.mem_map.mpr ⟨it, List.mem_filter.mpr
          ⟨List.mem_flatten.mpr ⟨cn.items, List.mem_map.mpr ⟨cn, hcn, rfl⟩, hit⟩, hpred⟩, rfl⟩
      · simp [hcons cn hcn it hit]
  have hCm : ∀ x, x ∈ C ↔ ∃ m ∈ M, m.categoryId = x := by
    intro x
    rw [hC, setAddBy_foldl_mem]
    simp
  have hCc : ∀ cn ∈ D,
      (C.any (fun cid => cn.el.id = cid)) =
        cn.items.any (fun it => jsIncludes it.id n) := by
    intro cn hcn
    rw [← hA cn hcn, Bool.eq_iff_iff, List.any_eq_true, List.any_eq_true]
    constructor
    · rintro ⟨cid, hcid, heq⟩
      have heq' : cn.el.id = cid := by simpa using heq
      rcases (hCm cid).mp hcid with ⟨m, hm, rfl⟩
      exact ⟨m, hm, by simpa using heq'⟩
    · rintro ⟨m, hm, heq⟩
      have heq' : cn.el.id = m.categoryId := by simpa using heq
      exact ⟨m.categoryId, (hCm m.categoryId).mpr ⟨m, hm, rfl⟩, by simpa using heq'⟩
  have hPpairs : P = D.map (fun cn => (cn.el.id, cn.el.name)) := by
    rw [hP, List.map_map, List.map_map, List.map_map]
    refine List.map_congr_left (fun cn _ => ?_)
    simp only [Function.comp_apply]
    unfold descCatsPass descMatchPass hideAllNode
    by_cases hx1 : (M.any (fun m => cn.el.id = m.categoryId)) = true <;>
      by_cases hx2 : (C.any (fun cid => cn.el.id = cid)) = true <;>
      simp [hx1, hx2]
  have hDel : ∀ cn ∈ D,
      (P.any (fun p => jsIncludes p.2 n && cn.el.id = p.1)) =
        jsIncludes cn.el.name n := by
    intro cn hcn
    rw [hPpairs, Bool.eq_iff_iff, List.any_eq_true]
    constructor
    · rintro ⟨pp, hpp, hcond⟩
      rcases List.mem_map.mp hpp with ⟨cn', hcn', rfl⟩
      simp only [Bool.and_eq_true, decide_eq_true_eq] at hcond
      rcases hcond with ⟨hname, hid⟩
      have heqn : cn' = cn := List.inj_on_of_nodup_map hnd hcn' hcn (by rw [hid])
      rw [heqn] at hname
      exact hname
    · intro hname
      exact ⟨(cn.el.id, cn.el.name), List.mem_map.mpr ⟨cn, hcn, rfl⟩, by simp [hname]⟩
  have hDit : ∀ cn ∈ D, ∀ it ∈ cn.items,
      (P.any (fun p => jsIncludes p.2 n && it.categoryId = p.1)) =
        jsIncludes cn.el.name n := by
    intro cn hcn it hit
    simp only [hcons cn hcn it hit]
    exact hDel cn hcn
  rw [List.map_map, List.map_map, List.map_map]
  refine List.map_congr_left (fun cn hcn => ?_)
  simp only [Function.comp_apply]
  have e1 : descMatchPass M (hideAllNode cn) =
      { cn with
        el := { cn.el with
          hidden := true,
          itemsHidden := !(cn.items.any (fun it => jsIncludes it.id n)) },
        items := cn.items.map (fun it => { it with hidden := !(jsIncludes it.id n) }) } := by
    unfold descMatchPass hideAllNode
    dsimp only
    rw [hA cn hcn]
    congr 1
    · cases hx : cn.items.any (fun it => jsIncludes it.id n) <;> rfl
    · rw [List.map_map]
      refine List.map_congr_left (fun it hit => ?_)
      simp only [Function.comp_apply]
      dsimp only
      rw [hB cn hcn it hit]
      cases hx : jsIncludes it.id n <;> rfl
  have e2 : descCatsPass C
      { cn with
        el := { cn.el with
          hidden := true,
          itemsHidden := !(cn.items.any (fun it => jsIncludes it.id n)) },
        items := cn.items.map (fun it => { it with hidden := !(jsIncludes it.id n) }) } =
      { cn with
        el := { cn.el with
          hidden := !(cn.items.any (fun it => jsIncludes it.id n)),
          itemsHidden := !(cn.items.any (fun it => jsIncludes it.id n)),
          expanded := if cn.items.any (fun it => jsIncludes it.id n)
            then true else cn.el.expanded,
          itemsExpanded := if cn.items.any (fun it => jsIncludes it.id n)
            then true else cn.el.itemsExpanded },
        items := cn.items.map (fun it => { it with hidden := !(jsIncludes it.id n) }) } := by
    unfold descCatsPass
    dsimp only
    rw [hCc cn hcn]
    cases hx : cn.items.any (fun it => jsIncludes it.id n) <;> rfl
  have e3 : descNamePass P n
      { cn with
        el := { cn.el with
          hidden := !(cn.items.any (fun it => jsIncludes it.id n)),
          itemsHidden := !(cn.items.any (fun it => jsIncludes it.id n)),
          expanded := if cn.items.any (fun it => jsIncludes it.id n)
            then true else cn.el.expanded,
          itemsExpanded := if cn.items.any (fun it => jsIncludes it.id n)
            then true else cn.el.itemsExpanded },
        items := cn.items.map (fun it => { it with hidden := !(jsIncludes it.id n) }) } =
      filterSpecNode n cn := by
    unfold descNamePass filterSpecNode
    dsimp only
    rw [hDel cn hcn]
    congr 1
    · cases hnm : jsIncludes cn.el.name n <;>
        cases hx : cn.items.any (fun it => jsIncludes it.id n) <;> rfl
    · rw [List.map_map]
      refine List.map_congr_left (fun it hit => ?_)
      simp only [Function.comp_apply]
      dsimp only
      rw [hDit cn hcn it hit]
      cases hnm : jsIncludes cn.el.name n <;>
        cases hx : jsIncludes it.id n <;> rfl
  rw [e1, e2, e3]

/-- C6: corrected characterization of `filterTreeItems`. For a rendered
    snapshot whose rows carry their parent category's id and whose category
    ids are unique: with non-empty normalized filter text, a mod row ends
    visible iff its id contains the filter text or its category's display
    name does (matching is case-sensitive against the raw id and name, only
    the filter text itself being lowercased); a category and its children
    container end visible iff the category's name contains the text or one
    of its rows' ids does, in which case both expansion classes are forced
    on, and otherwise expansion is left untouched; with empty normalized
    text everything is unhidden and no persisted expansion state changes. -/
theorem claim_C6_filter_characterization (st : TreeState) (t : String)
    (hcons : ∀ cn ∈ st.dom, ∀ it ∈ cn.items, it.categoryId = cn.el.id)
    (hnd : (st.dom.map (fun cn => cn.el.id)).Nodup) :
    (jsTrim (jsToLower t) ≠ "" →
      (filterTreeItems st t).dom =
        st.dom.map (filterSpecNode (jsTrim (jsToLower t))))
    ∧ (jsTrim (jsToLower t) = "" →
      (filterTreeItems st t).dom = st.dom.map showAllNode
        ∧ (filterTreeItems st t).settings.appSettings.tree_open_state
            = st.settings.appSettings.tree_open_state) := by
  constructor
  · intro hn
    unfold filterTreeItems
    dsimp only
    rw [if_neg hn]
    rw [showNameMatchStep_foldl_dom, showCategoryStep_foldl_dom,
      showMatchingItemStep_foldl_dom]
    exact filterPasses_eval st.dom (jsTrim (jsToLower t)) hcons hnd _ _ _ rfl rfl rfl
  · intro hn
    unfold filterTreeItems
    dsimp only
    rw [if_pos hn]
    exact ⟨rfl, rfl⟩

/-- A one-category, one-row snapshot used to instantiate the filter
    characterization. -/
def C6WitnessState : TreeState :=
  { dom := [ { el := { id := "Tools", name := "Tools" },
               items := [ { id := "axe", categoryId := "Tools" } ] } ],
    categories := [] }

theorem claim_C6_filter_characterization_witness :
    (∀ cn ∈ C6WitnessState.dom, ∀ it ∈ cn.items, it.categoryId = cn.el.id)
    ∧ (C6WitnessState.dom.map (fun cn => cn.el.id)).Nodup
    ∧ ((jsTrim (jsToLower "axe") ≠ "" →
        (filterTreeItems C6WitnessState "axe").dom =
          C6WitnessState.dom.map (filterSpecNode (jsTrim (jsToLower "axe"))))
      ∧ (jsTrim (jsToLower "axe") = "" →
        (filterTreeItems C6WitnessState "axe").dom = C6WitnessState.dom.map showAllNode
          ∧ (filterTreeItems C6WitnessState "axe").settings.appSettings.tree_open_state
              = C6WitnessState.settings.appSettings.tree_open_state)) :=
  ⟨by decide, by decide,
    claim_C6_filter_characterization C6WitnessState "axe" (by decide) (by decide)⟩

/-- Two categories, one whose name matches `"rad"` only case-insensitively
    and one whose name matches it literally, each with one row whose id does
    not contain `"rad"`. -/
def C6CounterState : TreeState :=
  { dom := [ { el := { id := "Radiant", name := "Radiant" },
               items := [ { id := "alpha", categoryId := "Radiant" } ] },
             { el := { id := "radmods", name := "radmods" },
               items := [ { id := "beta", categoryId := "radmods" } ] } ],
    categories := [] }

/-- C6 counterexample to the original claim: filtering with `"rad"` leaves
    the category `Radiant` hidden even though its name contains the filter
    text case-insensitively (the match is case-sensitive on the name), and
    leaves the row `beta` visible even though its id does not contain the
    filter text (a name-matching category unhides all of its rows). -/
theorem claim_C6_counterexample :
    jsIncludes (jsToLower "Radiant") (jsTrim (jsToLower "rad")) = true
    ∧ ((filterTreeItems C6CounterState "rad").dom.map (fun cn => (cn.el.id, cn.el.hidden)))
        = [("Radiant", true), ("radmods", false)]
    ∧ jsIncludes "beta" (jsTrim (jsToLower "rad")) = false
    ∧ ((filterTreeItems C6CounterState "rad").dom.map
          (fun cn => cn.items.map (fun it => (it.id, it.hidden))))
        = [[("alpha", true)], [("beta", false)]] := by
  decide

/-! ### C5: dropping mods on a category -/

theorem take_get_drop_perm {α : Type} (l : List α) (s : Nat) (x : α)
    (h2 : l.get? s = some x) : l.Perm (x :: (l.take s ++ l.drop (s + 1))) := by
  rcases List.get?_eq_some.mp h2 with ⟨hlt, hx⟩
  have hx' : l[s] = x := hx
  have hl : l = l.take s ++ (x :: l.drop (s + 1)) := by
    conv_lhs => rw [← List.take_append_drop s l, List.drop_eq_getElem_cons hlt, hx']
  conv_lhs => rw [hl]
  exact List.perm_middle

theorem jsSpliceRemove1_perm {α : Type} (l : List α) (i : Int) (rest : List α) (x : α)
    (h : jsSpliceRemove1 l i = (rest, some x)) : l.Perm (x :: rest) := by
  simp only [jsSpliceRemove1] at h
  rw [Prod.mk.injEq] at h
  rcases h with ⟨h1, h2⟩
  subst h1
  exact take_get_drop_perm l _ x h2

theorem map_src_id_of_ne (cs : List TreeCategory) (srcId : String) (rest : List TreeItem)
    (h : ∀ c ∈ cs, ¬(c.id = srcId)) :
    cs.map (fun c => if c.id = srcId then { c with children := rest } else c) = cs := by
  have h2 : cs.map (fun c => if c.id = srcId then { c with children := rest } else c) =
      cs.map id :=
    List.map_congr_left (fun c hc => by rw [if_neg (h c hc)]; rfl)
  rw [h2, List.map_id]

theorem map_tgt_id_of_ne (cs : List TreeCategory) (tgtId : String) (moved : TreeItem)
    (h : ∀ c ∈ cs, ¬(c.id = tgtId)) :
    cs.map (fun c => if c.id = tgtId then { c with children := c.children ++ [moved] } else c) =
      cs := by
  have h2 : cs.map
      (fun c => if c.id = tgtId then { c with children := c.children ++ [moved] } else c) =
      cs.map id :=
    List.map_congr_left (fun c hc => by rw [if_neg (h c hc)]; rfl)
  rw [h2, List.map_id]

theorem flatten_target_append_perm :
    ∀ (cs : List TreeCategory) (tgtId : String) (moved : TreeItem),
      (cs.map TreeCategory.id).Nodup →
      (∃ c ∈ cs, c.id = tgtId) →
      (((cs.map (fun c =>
            if c.id = tgtId then { c with children := c.children ++ [moved] } else c)).map
          TreeCategory.children).flatten).Perm
        (moved :: ((cs.map TreeCategory.children).flatten)) := by
  intro cs
  induction cs with
  | nil =>
    intro tgtId moved _ hex
    rcases hex with ⟨c, hc, _⟩
    exact absurd hc (by simp)
  | cons c cs ih =>
    intro tgtId moved hnd hex
    rw [List.map_cons] at hnd
    have hhead : c.id ∉ cs.map TreeCategory.id := (List.nodup_cons.mp hnd).1
    have hnd' : (cs.map TreeCategory.id).Nodup := (List.nodup_cons.mp hnd).2
    by_cases hc : c.id = tgtId
    · have hnotin : ∀ c' ∈ cs, ¬(c'.id = tgtId) := by
        intro c' hc' heq
        exact hhead (by rw [hc, ← heq]; exact List.mem_map.mpr ⟨c', hc', rfl⟩)
      simp only [List.map_cons, List.flatten_cons, if_pos hc,
        map_tgt_id_of_ne cs tgtId moved hnotin]
      exact (List.perm_append_singleton moved c.children).append_right _
    · have hex' : ∃ c' ∈ cs, c'.id = tgtId := by
        rcases hex with ⟨c', hc', heq⟩
        rcases List.mem_cons.mp hc' with heqc | hmem
        · exact absurd (heqc ▸ heq) hc
        · exact ⟨c', hmem, heq⟩
      have ih' := ih tgtId moved hnd' hex'
      simp only [List.map_cons, List.flatten_cons, if_neg hc]
      exact (ih'.append_left c.children).trans List.perm_middle

theorem flatten_source_splice_perm :
    ∀ (cs : List TreeCategory) (srcId : String) (rest : List TreeItem) (moved : TreeItem),
      (cs.map TreeCategory.id).Nodup →
      (∃ c ∈ cs, c.id = srcId) →
      (∀ c ∈ cs, c.id = srcId → c.children.Perm (moved :: rest)) →
      ((cs.map TreeCategory.children).flatten).Perm
        (moved :: (((cs.map (fun c =>
            if c.id = srcId then { c with children := rest } else c)).map
          TreeCategory.children).flatten)) := by
  intro cs
  induction cs with
  | nil =>
    intro srcId rest moved _ hex _
    rcases hex with ⟨c, hc, _⟩
    exact absurd hc (by simp)
  | cons c cs ih =>
    intro srcId rest moved hnd hex hch
    rw [List.map_cons] at hnd
    have hhead : c.id ∉ cs.map TreeCategory.id := (List.nodup_cons.mp hnd).1
    have hnd' : (cs.map TreeCategory.id).Nodup := (List.nodup_cons.mp hnd).2
    by_cases hc : c.id = srcId
    · have hnotin : ∀ c' ∈ cs, ¬(c'.id = srcId) := by
        intro c' hc' heq
        exact hhead (by rw [hc, ← heq]; exact List.mem_map.mpr ⟨c', hc', rfl⟩)
      simp only [List.map_cons, List.flatten_cons, if_pos hc,
        map_src_id_of_ne cs srcId rest hnotin]
      exact (hch c (List.mem_cons_self c cs) hc).append_right _
    · have hex' : ∃ c' ∈ cs, c'.id = srcId := by
        rcases hex with ⟨c', hc', heq⟩
        rcases List.mem_cons.mp hc' with heqc | hmem
        · exact absurd (heqc ▸ heq) hc
        · exact ⟨c', hmem, heq⟩
      have ih' := ih srcId rest moved hnd' hex' (fun c' hc' => hch c' (List.mem_cons_of_mem c hc'))
      simp only [List.map_cons, List.flatten_cons, if_neg hc]
      exact (ih'.append_left c.children).trans List.perm_middle

theorem children_flatten_move_perm :
    ∀ (cats : List TreeCategory) (srcId tgtId : String) (rest : List TreeItem) (moved : TreeItem),
      (cats.map TreeCategory.id).Nodup →
      (∃ c ∈ cats, c.id = srcId) →
      (∃ c ∈ cats, c.id = tgtId) →
      (∀ c ∈ cats, c.id = srcId → c.children.Perm (moved :: rest)) →
      ((((cats.map (fun c => if c.id = srcId then { c with children := rest } else c)).map
          (fun c => if c.id = tgtId then { c with children := c.children ++ [moved] } else c)).map
        TreeCategory.children).flatten).Perm
        ((cats.map TreeCategory.children).flatten) := by
  intro cats
  induction cats with
  | nil =>
    intro srcId tgtId rest moved _ hs _ _
    rcases hs with ⟨c, hc, _⟩
    exact absurd hc (by simp)
  | cons c cs ih =>
    intro srcId tgtId rest moved hnd hs ht hch
    rw [List.map_cons] at hnd
    have hhead : c.id ∉ cs.map TreeCategory.id := (List.nodup_cons.mp hnd).1
    have hnd' : (cs.map TreeCategory.id).Nodup := (List.nodup_cons.mp hnd).2
    by_cases hcs : c.id = srcId
    · have hnsrc : ∀ c' ∈ cs, ¬(c'.id = srcId) := by
        intro c' hc' heq
        exact hhead (by rw [hcs, ← heq]; exact List.mem_map.mpr ⟨c', hc', rfl⟩)
      by_cases hct : c.id = tgtId
      · have hntgt : ∀ c' ∈ cs, ¬(c'.id = tgtId) := by
          intro c' hc' heq
          exact hhead (by rw [hct, ← heq]; exact List.mem_map.mpr ⟨c', hc', rfl⟩)
        simp only [List.map_cons, if_pos hcs, map_src_id_of_ne cs srcId rest hnsrc]
        rw [if_pos hct, map_tgt_id_of_ne cs tgtId moved hntgt]
        simp only [List.map_cons, List.flatten_cons]
        have h2 : ((rest ++ [moved]) : List TreeItem).Perm c.children :=
          (List.perm_append_singleton moved rest).trans
            (hch c (List.mem_cons_self c cs) hcs).symm
        exact h2.append_right _
      · have hex' : ∃ c' ∈ cs, c'.id = tgtId := by
          rcases ht with ⟨c', hc', heq⟩
          rcases List.mem_cons.mp hc' with heqc | hmem
          · exact absurd (heqc ▸ heq) hct
          · exact ⟨c', hmem, heq⟩
        have Ht := flatten_target_append_perm cs tgtId moved hnd' hex'
        simp only [List.map_cons, if_pos hcs, map_src_id_of_ne cs srcId rest hnsrc]
        rw [if_neg hct]
        simp only [List.map_cons, List.flatten_cons]
        refine List.Perm.trans ((Ht.append_left rest).trans List.perm_middle) ?_
        exact ((hch c (List.mem_cons_self c cs) hcs).append_right _).symm
    · by_cases hct : c.id = tgtId
      · have hnsrc' : ∃ c' ∈ cs, c'.id = srcId := by
          rcases hs with ⟨c', hc', heq⟩
          rcases List.mem_cons.mp hc' with heqc | hmem
          · exact absurd (heqc ▸ heq) hcs
          · exact ⟨c', hmem, heq⟩
        have hntgt : ∀ c' ∈ cs, ¬(c'.id = tgtId) := by
          intro c' hc' heq
          exact hhead (by rw [hct, ← heq]; exact List.mem_map.mpr ⟨c', hc', rfl⟩)
        have hntgt2 : ∀ c' ∈ cs.map
            (fun c => if c.id = srcId then { c with children := rest } else c),
            ¬(c'.id = tgtId) := by
          intro c' hc' heq
          rcases List.mem_map.mp hc' with ⟨c0, hc0, rfl⟩
          apply hntgt c0 hc0
          by_cases hx : c0.id = srcId
          · rw [if_pos hx] at heq
            exact heq
          · rw [if_neg hx] at heq
            exact heq
        have Hs := flatten_source_splice_perm cs srcId rest moved hnd' hnsrc'
          (fun c' hc' => hch c' (List.mem_cons_of_mem c hc'))
        simp only [List.map_cons, if_neg hcs]
        rw [if_pos hct, map_tgt_id_of_ne _ tgtId moved hntgt2]
        simp only [List.map_cons, List.flatten_cons]
        rw [List.append_assoc]
        refine List.Perm.trans List.perm_middle ?_
        exact ((Hs.append_left c.children).trans List.perm_middle).symm
      · have hs' : ∃ c' ∈ cs, c'.id = srcId := by
          rcases hs with ⟨c', hc', heq⟩
          rcases List.mem_cons.mp hc' with heqc | hmem
          · exact absurd (heqc ▸ heq) hcs
          · exact ⟨c', hmem, heq⟩
        have ht' : ∃ c' ∈ cs, c'.id = tgtId := by
          rcases ht with ⟨c', hc', heq⟩
          rcases List.mem_cons.mp hc' with heqc | hmem
          · exact absurd (heqc ▸ heq) hct
          · exact ⟨c', hmem, heq⟩
        have ih' := ih srcId tgtId rest moved hnd' hs' ht'
          (fun c' hc' => hch c' (List.mem_cons_of_mem c hc'))
        simp only [List.map_cons, if_neg hcs]
        rw [if_neg hct]
        simp only [List.map_cons, List.flatten_cons]
        exact ih'.append_left c.children

theorem modDropStep_ok_cats (targetId : String) (st : TreeState) (s : String)
    (st' : TreeState) (hnd : (st.categories.map TreeCategory.id).Nodup)
    (hok : modDropStep targetId st s = .ok st') :
    st'.categories.map TreeCategory.id = st.categories.map TreeCategory.id
    ∧ ((st'.categories.map TreeCategory.children).flatten).Perm
        ((st.categories.map TreeCategory.children).flatten) := by
  simp only [modDropStep] at hok
  split at hok
  · cases hok
    exact ⟨rfl, List.Perm.refl _⟩
  · rename_i itemElement hI
    split at hok
    · split at hok
      · exact (Except.noConfusion hok)
      · rename_i sourceCategory hF
        split at hok
        · exact (Except.noConfusion hok)
        · rename_i movedMod hsp
          split at hok
          · cases hok
            rename_i hT
            constructor
            · rw [List.map_map, List.map_map]
              refine List.map_congr_left (fun c _ => ?_)
              simp only [Function.comp_apply]
              by_cases h1 : c.id = sourceCategory.id
              · by_cases h2 : c.id = targetId
                · simp [h1, h1 ▸ h2]
                · simp [h1, h1 ▸ h2]
              · by_cases h2 : c.id = targetId
                · simp [h1, h2, h2 ▸ h1]
                · simp [h1, h2]
            · refine children_flatten_move_perm st.categories sourceCategory.id targetId
                _ movedMod hnd ?_ ?_ ?_
              · exact ⟨sourceCategory, List.mem_of_find?_eq_some hF, rfl⟩
              · rename_i hT
                rcases List.any_eq_true.mp hT with ⟨c1, hc1, hc1t⟩
                rcases List.mem_map.mp hc1 with ⟨c0, hc0, rfl⟩
                refine ⟨c0, hc0, ?_⟩
                by_cases hx : c0.id = sourceCategory.id
                · rw [if_pos hx] at hc1t
                  simpa using hc1t
                · rw [if_neg hx] at hc1t
                  simpa using hc1t
              · intro c hc hcid
                have hceq : c = sourceCategory :=
                  List.inj_on_of_nodup_map hnd hc (List.mem_of_find?_eq_some hF) hcid
                subst hceq
                refine jsSpliceRemove1_perm c.children
                  (jsFindIdx (fun ch => cssEscape ch.id = s) c.children) _ movedMod ?_
                rw [← hsp]
          · exact (Except.noConfusion hok)
    · cases hok
      exact ⟨rfl, List.Perm.refl _⟩

theorem exceptFoldl_modDrop_cats (targetId : String) :
    ∀ (ids : List String) (st st1 : TreeState),
      (st.categories.map TreeCategory.id).Nodup →
      exceptFoldl (modDropStep targetId) st ids = .ok st1 →
      st1.categories.map TreeCategory.id = st.categories.map TreeCategory.id
      ∧ ((st1.categories.map TreeCategory.children).flatten).Perm
          ((st.categories.map TreeCategory.children).flatten) := by
  intro ids
  induction ids with
  | nil =>
    intro st st1 hnd hfold
    unfold exceptFoldl at hfold
    cases hfold
    exact ⟨rfl, List.Perm.refl _⟩
  | cons i ids ih =>
    intro st st1 hnd hfold
    unfold exceptFoldl at hfold
    split at hfold
    · exact (Except.noConfusion hfold)
    · rename_i s' heq
      have hstep := modDropStep_ok_cats targetId st i s' hnd heq
      have hnd' : (s'.categories.map TreeCategory.id).Nodup := by
        rw [hstep.1]
        exact hnd
      have hrec := ih s' st1 hnd' hfold
      exact ⟨hrec.1.trans hstep.1, hrec.2.trans hstep.2⟩

theorem domMove_fold_suffix (tid : String) :
    ∀ (ids : List String) (dom : List CatNode) (acc : List String) (dom' : List CatNode),
      ids.Nodup →
      (∀ i ∈ ids, i ∉ acc) →
      (∀ cn ∈ dom, cn.el.id = tid → ∃ pre : List String, cn.items.map ItemEl.id = pre ++ acc) →
      exceptFoldl (domMoveStep tid) dom ids = .ok dom' →
      ∀ cn ∈ dom', cn.el.id = tid →
        ∃ pre : List String, cn.items.map ItemEl.id = pre ++ (acc ++ ids) := by
  intro ids
  induction ids with
  | nil =>
    intro dom acc dom' _ _ hinv hfold cn hcn hid
    unfold exceptFoldl at hfold
    cases hfold
    rcases hinv cn hcn hid with ⟨pre, hpre⟩
    exact ⟨pre, by rw [List.append_nil]; exact hpre⟩
  | cons i ids ih =>
    intro dom acc dom' hndup hdisj hinv hfold
    unfold exceptFoldl at hfold
    split at hfold
    · exact (Except.noConfusion hfold)
    · rename_i dom1 heq
      simp only [domMoveStep] at heq
      split at heq
      · exact (Except.noConfusion heq)
      · rename_i itF hfind
        cases heq
        have hitF : itF.id = i := by simpa using List.find?_some hfind
        have hinv' : ∀ cn ∈ appendItemTo (removeItemEl dom i) tid itF, cn.el.id = tid →
            ∃ pre : List String, cn.items.map ItemEl.id = pre ++ (acc ++ [i]) := by
          intro cn1 hcn1 hid1
          unfold appendItemTo at hcn1
          rcases List.mem_map.mp hcn1 with ⟨cn2, hcn2, rfl⟩
          unfold removeItemEl at hcn2
          rcases List.mem_map.mp hcn2 with ⟨cn0, hcn0, rfl⟩
          by_cases hx : cn0.el.id = tid
          · rw [if_pos hx]
            rcases hinv cn0 hcn0 hx with ⟨pre, hpre⟩
            refine ⟨pre.filter (fun x => x ≠ i), ?_⟩
            rw [List.map_append]
            have hfm : (cn0.items.filter (fun it => it.id ≠ i)).map ItemEl.id =
                (cn0.items.map ItemEl.id).filter (fun x => x ≠ i) :=
              (@List.filter_map ItemEl String (fun x => x ≠ i) ItemEl.id cn0.items).symm
            rw [hfm, hpre, List.filter_append]
            have hacc : acc.filter (fun x => x ≠ i) = acc := by
              refine List.filter_eq_self.mpr ?_
              intro a ha
              have hne : a ≠ i := by
                intro hEq
                exact hdisj i (List.mem_cons_self i ids) (hEq ▸ ha)
              simpa using hne
            rw [hacc]
            simp [hitF, List.append_assoc]
          · rw [if_neg hx] at hid1
            exact absurd hid1 hx
        have hnd' : ids.Nodup := (List.nodup_cons.mp hndup).2
        have hdisj' : ∀ j ∈ ids, j ∉ acc ++ [i] := by
          intro j hj hmem
          rcases List.mem_append.mp hmem with hja | hjb
          · exact hdisj j (List.mem_cons_of_mem i hj) hja
          · have hji : j = i := by simpa using hjb
            exact (List.nodup_cons.mp hndup).1 (hji ▸ hj)
        have hres := ih (appendItemTo (removeItemEl dom i) tid itF) (acc ++ [i]) dom'
          hnd' hdisj' hinv' hfold
        intro cn hcn hid
        rcases hres cn hcn hid with ⟨pre, hpre⟩
        refine ⟨pre, ?_⟩
        rw [List.append_assoc] at hpre
        exact hpre

/-- Claim-side request list for a mod drop: the payload ids whose mod's
    current category differs from the target — the original claim's account
    of what is sent to `handle_mod_category_change`. -/
def claimC5RequestIds (st : TreeState) (sourceIds : List String) (targetId : String) :
    List String :=
  sourceIds.filter (fun sourceId =>
    match getItemEl st sourceId with
    | some itemElement => itemElement.categoryId ≠ targetId
    | none => false)

set_option maxHeartbeats 1000000 in
/-- C5: corrected account of `handleModDrop`. The backend request carries
    every payload id other than those equal to the target id itself — not
    the ids whose current category differs. A rejected call changes only the
    status message. When the confirmed move loop completes without faulting,
    the mod population of the cached categories is preserved (each moved mod
    leaves its source child list and is appended to the target's, none lost
    or duplicated) and no category is created or destroyed; on the fully
    successful path the target container's rows end in the order of the
    target's children sorted by the active sort field and direction. -/
theorem claim_C5_mod_drop (st : TreeState) (sourceIds : List String) (targetId : String)
    (hnd : (st.categories.map TreeCategory.id).Nodup) :
    (∀ s, s ∈ movedIdsOf sourceIds targetId ↔ (s ∈ sourceIds ∧ s ≠ targetId))
    ∧ (∀ e : String, handleModDrop st sourceIds targetId (.error e) =
        { st with statusMessage := "Moving " ++ toString sourceIds.length ++ " mods..." })
    ∧ (∀ st1, exceptFoldl (modDropStep targetId)
          { st with statusMessage := "Moving " ++ toString sourceIds.length ++ " mods..." }
          sourceIds = .ok st1 →
        (((handleModDrop st sourceIds targetId (.ok ())).categories.map
            TreeCategory.children).flatten).Perm
          ((st.categories.map TreeCategory.children).flatten)
        ∧ (handleModDrop st sourceIds targetId (.ok ())).categories.map TreeCategory.id =
            st.categories.map TreeCategory.id)
    ∧ (∀ st1 targetCategory dom' cn0,
        getCatNode { st with statusMessage :=
            "Moving " ++ toString sourceIds.length ++ " mods..." } targetId = some cn0 →
        exceptFoldl (modDropStep targetId)
          { st with statusMessage := "Moving " ++ toString sourceIds.length ++ " mods..." }
          sourceIds = .ok st1 →
        st1.categories.find? (fun c => c.id = targetId) = some targetCategory →
        ((sortItems targetCategory.children st1.currentSortField st1.sortDirection).map
            (fun item => cssEscape item.id)).Nodup →
        exceptFoldl (domMoveStep targetId) st1.dom
          ((sortItems targetCategory.children st1.currentSortField st1.sortDirection).map
            (fun item => cssEscape item.id)) = .ok dom' →
        (handleModDrop st sourceIds targetId (.ok ())).dom = dom'
        ∧ ∀ cn ∈ dom', cn.el.id = targetId →
            ∃ pre : List String, cn.items.map ItemEl.id =
              pre ++ (sortItems targetCategory.children st1.currentSortField
                st1.sortDirection).map (fun item => cssEscape item.id)) := by
  refine ⟨?_, ?_, ?_, ?_⟩
  · intro s
    simp [movedIdsOf, List.mem_filter]
  · intro e
    rfl
  · intro st1 hfold
    have hlem := exceptFoldl_modDrop_cats targetId sourceIds
      { st with statusMessage := "Moving " ++ toString sourceIds.length ++ " mods..." }
      st1 hnd hfold
    unfold handleModDrop
    dsimp only
    cases hG : getCatNode
        { st with statusMessage := "Moving " ++ toString sourceIds.length ++ " mods..." }
        targetId with
    | none =>
      simp only [hG]
      exact ⟨List.Perm.refl _, trivial⟩
    | some cn0 =>
      simp only [hG, hfold]
      cases hF : st1.categories.find? (fun c => c.id = targetId) with
      | none =>
        simp only [hF]
        exact ⟨hlem.2, hlem.1⟩
      | some targetCategory =>
        simp only [hF]
        cases hD : exceptFoldl (domMoveStep targetId) st1.dom
            ((sortItems targetCategory.children st1.currentSortField
              st1.sortDirection).map (fun item => cssEscape item.id)) with
        | error dom2 =>
          simp only [hD]
          exact ⟨hlem.2, hlem.1⟩
        | ok dom2 =>
          simp only [hD]
          exact ⟨hlem.2, hlem.1⟩
  · intro st1 targetCategory dom' cn0 hG hfold hF hnodup hD
    constructor
    · unfold handleModDrop
      dsimp only
      simp only [hG, hfold, hF, hD]
    · intro cn hcn hid
      exact domMove_fold_suffix targetId
        ((sortItems targetCategory.children st1.currentSortField st1.sortDirection).map
          (fun item => cssEscape item.id))
        st1.dom [] dom' hnodup (by simp)
        (fun cn2 _ _ => ⟨cn2.items.map ItemEl.id, by rw [List.append_nil]⟩)
        hD cn hcn hid

/-- A two-category snapshot: `A` holding the mod `m1`, `B` empty, with the
    matching cached categories. -/
def C5WitnessState : TreeState :=
  { dom := [ { el := { id := "A", name := "A" },
               items := [ { id := "m1", categoryId := "A" } ] },
             { el := { id := "B", name := "B" }, items := [] } ],
    categories := [ { id := "A", name := "A",
                      children := [ { id := "m1", name := "m1" } ] },
                    { id := "B", name := "B", children := [] } ] }

theorem claim_C5_mod_drop_witness :
    ((C5WitnessState.categories.map TreeCategory.id).Nodup)
    ∧ (∀ e : String, handleModDrop C5WitnessState ["m1"] "B" (.error e) =
        { C5WitnessState with statusMessage := "Moving 1 mods..." }) :=
  ⟨by decide, (claim_C5_mod_drop C5WitnessState ["m1"] "B" (by decide)).2.1⟩

/-- A one-category snapshot: `T` already holds the only payload mod `m1`. -/
def C5CounterState : TreeState :=
  { dom := [ { el := { id := "T", name := "T" },
               items := [ { id := "m1", categoryId := "T" } ] } ],
    categories := [ { id := "T", name := "T",
                      children := [ { id := "m1", name := "m1" } ] } ] }

/-- C5 counterexample to the original claim: dropping `m1` onto the category
    it already belongs to still sends `m1` to the backend — the code's filter
    only drops payload ids equal to the target id itself, while the claim's
    request set (ids whose current category differs from the target) would be
    empty. -/
theorem claim_C5_counterexample :
    movedIdsOf ["m1"] "T" = ["m1"]
    ∧ claimC5RequestIds C5CounterState ["m1"] "T" = []
    ∧ (getItemEl C5CounterState "m1").map ItemEl.categoryId = some "T" := by
  decide

end Runcher
